import Mathlib

/-!
Verification development for the hayro-annot PDF annotation serializer.

The definitions below are a shallow embedding of the Rust sources in
src/hayro-annot/src (types.rs, writer.rs, appearance.rs).  Numeric fields
of type f32 are modelled as exact rationals: every operation the claims
touch is a comparison, a min/max or a copy, so no floating-point rounding
is involved.  Byte buffers are modelled as lists of naturals (byte values).

The snapshot under src/ is incomplete: appearance.rs pattern-matches on
TextField and SignatureField constructors that types.rs does not declare,
and tests/spec_suite.rs names a SaveError variant (InvalidDestinationPage)
that writer.rs does not declare.  The missing pieces are modelled from the
specification and are marked with a doc comment starting with
Modelled from the spec.
-/

set_option autoImplicit false

namespace Hayro

/-- Embedding of AnnotColor (types.rs): an RGB triple of floats, modelled
as rationals. -/
structure AnnotColor where
  r : ℚ
  g : ℚ
  b : ℚ
deriving DecidableEq, Repr

/-- Embedding of AnnotationBase (types.rs): the shared base record of all
annotation kinds.  The rect is the 4-tuple (x0, y0, x1, y1). -/
structure AnnotationBase where
  rect : ℚ × ℚ × ℚ × ℚ
  color : Option AnnotColor
  author : Option String
  contents : Option String
  modified : Option String
  flags : Nat
  opacity : ℚ
deriving DecidableEq, Repr

/-- Embedding of the Default impl for AnnotationBase (types.rs): zero
rect, no optional fields, flags 4 (Print), opacity 1. -/
def AnnotationBase.default : AnnotationBase :=
  { rect := (0, 0, 0, 0), color := none, author := none, contents := none
  , modified := none, flags := 4, opacity := 1 }

/-- Embedding of HighlightAnnot (types.rs). -/
structure HighlightAnnot where
  base : AnnotationBase
  quad_points : List ℚ
deriving DecidableEq, Repr

/-- Embedding of UnderlineAnnot (types.rs). -/
structure UnderlineAnnot where
  base : AnnotationBase
  quad_points : List ℚ
deriving DecidableEq, Repr

/-- Embedding of StrikeOutAnnot (types.rs). -/
structure StrikeOutAnnot where
  base : AnnotationBase
  quad_points : List ℚ
deriving DecidableEq, Repr

/-- Embedding of SquigglyAnnot (types.rs). -/
structure SquigglyAnnot where
  base : AnnotationBase
  quad_points : List ℚ
deriving DecidableEq, Repr

/-- Embedding of FreeTextAnnot (types.rs). -/
structure FreeTextAnnot where
  base : AnnotationBase
  text : String
  font_size : ℚ
  default_appearance : String
deriving DecidableEq, Repr

/-- Embedding of InkAnnot (types.rs); each path is a list of (x, y)
points. -/
structure InkAnnot where
  base : AnnotationBase
  ink_list : List (List (ℚ × ℚ))
  line_width : ℚ
deriving DecidableEq, Repr

/-- Embedding of ShapeAnnot (types.rs), shared by Square and Circle. -/
structure ShapeAnnot where
  base : AnnotationBase
  interior_color : Option AnnotColor
  line_width : ℚ
  is_circle : Bool
deriving DecidableEq, Repr

/-- Embedding of LineAnnot (types.rs).  The Rust field named end is
renamed end_pt because end is a Lean keyword. -/
structure LineAnnot where
  base : AnnotationBase
  start : ℚ × ℚ
  end_pt : ℚ × ℚ
  line_width : ℚ
deriving DecidableEq, Repr

/-- Embedding of TextAnnot (types.rs): the sticky-note annotation. -/
structure TextAnnot where
  base : AnnotationBase
  open_popup : Bool
  icon : String
deriving DecidableEq, Repr

/-- Embedding of LinkAnnot (types.rs). -/
structure LinkAnnot where
  base : AnnotationBase
  uri : Option String
  dest_page : Option Nat
deriving DecidableEq, Repr

/-- Modelled from the spec: TextFieldAnnot, the text form-field widget
record (spec section 3 and 4.3).  The constructor is referenced by
src/hayro-annot/src/appearance.rs and src/hayro-demo but its declaration
is missing from the types.rs snapshot; the field list follows the spec
and the construction sites in appearance.rs tests and hayro-demo. -/
structure TextFieldAnnot where
  base : AnnotationBase
  field_name : String
  value : Option String
  default_value : Option String
  max_len : Option Nat
  default_appearance : String
  read_only : Bool
  required : Bool
  multiline : Bool
deriving DecidableEq, Repr

/-- Modelled from the spec: SignatureFieldAnnot, the signature form-field
widget record (spec section 3 and 4.3); declaration missing from the
types.rs snapshot, field list from the spec and the construction sites in
appearance.rs tests and hayro-demo. -/
structure SignatureFieldAnnot where
  base : AnnotationBase
  field_name : String
  tooltip : Option String
  required : Bool
deriving DecidableEq, Repr

/-- Embedding of the annotation tagged union (types.rs, enum named
Annotation in Rust; shortened here because the full Rust name is not
usable in this file).  The eleven arms of the types.rs snapshot are
extended with the TextField and SignatureField arms required by
appearance.rs and hayro-demo and listed in spec section 4.3. -/
inductive Annot where
  | Highlight (a : HighlightAnnot)
  | Underline (a : UnderlineAnnot)
  | StrikeOut (a : StrikeOutAnnot)
  | Squiggly (a : SquigglyAnnot)
  | FreeText (a : FreeTextAnnot)
  | Ink (a : InkAnnot)
  | Square (a : ShapeAnnot)
  | Circle (a : ShapeAnnot)
  | Line (a : LineAnnot)
  | Text (a : TextAnnot)
  | Link (a : LinkAnnot)
  | TextField (a : TextFieldAnnot)
  | SignatureField (a : SignatureFieldAnnot)
deriving DecidableEq, Repr

/-- Embedding of the base accessor on the annotation union (types.rs). -/
def Annot.base : Annot → AnnotationBase
  | .Highlight a => a.base
  | .Underline a => a.base
  | .StrikeOut a => a.base
  | .Squiggly a => a.base
  | .FreeText a => a.base
  | .Ink a => a.base
  | .Square a => a.base
  | .Circle a => a.base
  | .Line a => a.base
  | .Text a => a.base
  | .Link a => a.base
  | .TextField a => a.base
  | .SignatureField a => a.base

/-- Model of a PDF object value as written by pdf-writer: names, text
strings, numbers, booleans, arrays, inline dictionaries and indirect
references. -/
inductive PdfVal where
  | name (s : String)
  | str (s : String)
  | num (q : ℚ)
  | bool (b : Bool)
  | arr (xs : List PdfVal)
  | dict (xs : List (String × PdfVal))
  | ref (r : Nat)
deriving Repr

/-- Lookup of the first entry with the given key in an emitted
dictionary (a PDF reader resolves a key to its first occurrence). -/
def dictGet (d : List (String × PdfVal)) (k : String) : Option PdfVal :=
  (d.find? (fun e => e.1 == k)).map (fun e => e.2)

/-- Embedding of the icon canonicalization in write_annotation_dict
(writer.rs lines 584-592): the six named icons map to themselves and
everything else maps to Note. -/
def canonIcon (icon : String) : String :=
  if icon == "Comment" then "Comment"
  else if icon == "Key" then "Key"
  else if icon == "Help" then "Help"
  else if icon == "NewParagraph" then "NewParagraph"
  else if icon == "Paragraph" then "Paragraph"
  else if icon == "Insert" then "Insert"
  else "Note"

/-- Modelled from the spec: the /Ff field-flag word of a text field
widget, with the standard PDF bit positions for ReadOnly (bit 1, value 1),
Required (bit 2, value 2) and Multiline (bit 13, value 4096).  The widget
arm of write_annotation_dict is missing from the writer.rs snapshot. -/
def textFieldFf (tf : TextFieldAnnot) : Nat :=
  (if tf.read_only then 1 else 0) + (if tf.required then 2 else 0) +
    (if tf.multiline then 4096 else 0)

/-- Modelled from the spec: the /Ff field-flag word of a signature field
widget, carrying only the Required bit (value 2). -/
def sigFieldFf (sf : SignatureFieldAnnot) : Nat :=
  if sf.required then 2 else 0

/-- Embedding of the common entries written by write_annotation_dict
(writer.rs lines 477-507) in emission order: /Type /Annot (written by the
pdf-writer annotation starter), /Rect with the four input coordinates
verbatim, /F with the flags truncated to the ten defined annotation-flag
bits (from_bits_truncate), then the optional /C, /T, /Contents entries,
/CA exactly when opacity is below 1, and /AP /N when an appearance stream
was emitted. -/
def baseEntries (base : AnnotationBase) (ap_stream_ref : Nat)
    (has_appearance : Bool) : List (String × PdfVal) :=
  [("Type", PdfVal.name "Annot"),
   ("Rect", PdfVal.arr [PdfVal.num base.rect.1, PdfVal.num base.rect.2.1,
      PdfVal.num base.rect.2.2.1, PdfVal.num base.rect.2.2.2]),
   ("F", PdfVal.num ((base.flags % 1024 : Nat) : ℚ))]
  ++ (match base.color with
      | some c => [("C", PdfVal.arr [PdfVal.num c.r, PdfVal.num c.g, PdfVal.num c.b])]
      | none => [])
  ++ (match base.author with
      | some a => [("T", PdfVal.str a)]
      | none => [])
  ++ (match base.contents with
      | some s => [("Contents", PdfVal.str s)]
      | none => [])
  ++ (if base.opacity < 1 then [("CA", PdfVal.num base.opacity)] else [])
  ++ (if has_appearance then [("AP", PdfVal.dict [("N", PdfVal.ref ap_stream_ref)])]
      else [])

/-- Embedding of the quad-point emission shared by the four markup arms of
write_annotation_dict (writer.rs lines 511-534): when the input list is
nonempty, all of its values are written to /QuadPoints verbatim. -/
def quadPointEntries (qs : List ℚ) : List (String × PdfVal) :=
  if qs.isEmpty then [] else [("QuadPoints", PdfVal.arr (qs.map PdfVal.num))]

/-- Embedding of the per-kind tail of write_annotation_dict (writer.rs
lines 510-603).  The TextField and SignatureField arms are missing from
the writer.rs snapshot and are modelled from the spec (section 4.3 table):
Widget subtype, /FT, /T, the optional /V, /DV, /MaxLen, /TU entries, /DA
and the /Ff flag word. -/
def subtypeEntries : Annot → List (String × PdfVal)
  | .Highlight h => ("Subtype", PdfVal.name "Highlight") :: quadPointEntries h.quad_points
  | .Underline u => ("Subtype", PdfVal.name "Underline") :: quadPointEntries u.quad_points
  | .StrikeOut s => ("Subtype", PdfVal.name "StrikeOut") :: quadPointEntries s.quad_points
  | .Squiggly s => ("Subtype", PdfVal.name "Squiggly") :: quadPointEntries s.quad_points
  | .FreeText ft =>
      [("Subtype", PdfVal.name "FreeText"), ("DA", PdfVal.str ft.default_appearance)]
  | .Ink ink =>
      [("Subtype", PdfVal.name "Ink"),
       ("InkList", PdfVal.arr (ink.ink_list.map (fun path =>
          PdfVal.arr (List.flatten (path.map (fun p => [PdfVal.num p.1, PdfVal.num p.2]))))))]
  | .Square s =>
      ("Subtype", PdfVal.name "Square")
        :: (match s.interior_color with
            | some ic => [("IC", PdfVal.arr [PdfVal.num ic.r, PdfVal.num ic.g, PdfVal.num ic.b])]
            | none => [])
        ++ [("BS", PdfVal.dict [("W", PdfVal.num s.line_width)])]
  | .Circle s =>
      ("Subtype", PdfVal.name "Circle")
        :: (match s.interior_color with
            | some ic => [("IC", PdfVal.arr [PdfVal.num ic.r, PdfVal.num ic.g, PdfVal.num ic.b])]
            | none => [])
        ++ [("BS", PdfVal.dict [("W", PdfVal.num s.line_width)])]
  | .Line l =>
      [("Subtype", PdfVal.name "Line"),
       ("L", PdfVal.arr [PdfVal.num l.start.1, PdfVal.num l.start.2,
          PdfVal.num l.end_pt.1, PdfVal.num l.end_pt.2]),
       ("BS", PdfVal.dict [("W", PdfVal.num l.line_width)])]
  | .Text t =>
      ("Subtype", PdfVal.name "Text")
        :: (if t.open_popup then [("Open", PdfVal.bool true)] else [])
        ++ [("Name", PdfVal.name (canonIcon t.icon))]
  | .Link l =>
      ("Subtype", PdfVal.name "Link")
        :: (match l.uri with
            | some u => [("A", PdfVal.dict [("S", PdfVal.name "URI"), ("URI", PdfVal.str u)])]
            | none => [])
  | .TextField tf =>
      [("Subtype", PdfVal.name "Widget"), ("FT", PdfVal.name "Tx"),
       ("T", PdfVal.str tf.field_name)]
      ++ (match tf.value with
          | some v => [("V", PdfVal.str v)]
          | none => [])
      ++ (match tf.default_value with
          | some v => [("DV", PdfVal.str v)]
          | none => [])
      ++ (match tf.max_len with
          | some m => [("MaxLen", PdfVal.num (m : ℚ))]
          | none => [])
      ++ [("DA", PdfVal.str tf.default_appearance),
          ("Ff", PdfVal.num ((textFieldFf tf : Nat) : ℚ))]
  | .SignatureField sf =>
      [("Subtype", PdfVal.name "Widget"), ("FT", PdfVal.name "Sig"),
       ("T", PdfVal.str sf.field_name)]
      ++ (match sf.tooltip with
          | some t => [("TU", PdfVal.str t)]
          | none => [])
      ++ [("Ff", PdfVal.num ((sigFieldFf sf : Nat) : ℚ))]

/-- Embedding of write_annotation_dict (writer.rs lines 470-606): the
common entries followed by the per-kind entries, as a key-value list in
emission order. -/
def write_annotation_dict (a : Annot) (ap_stream_ref : Nat)
    (has_appearance : Bool) : List (String × PdfVal) :=
  baseEntries (Annot.base a) ap_stream_ref has_appearance ++ subtypeEntries a

/-- Abstraction of generate_appearance (appearance.rs lines 384-403)
keeping only what the writer inspects, namely emptiness: the Link arm
returns an empty byte string and every other arm emits at least one
drawing operator, hence a nonempty stream. -/
def ap_content_nonempty : Annot → Bool
  | .Link _ => false
  | _ => true

/-- Embedding of SaveError (writer.rs lines 16-25).  The
InvalidDestinationPage variant is modelled from the spec (section 7): it
is named by tests/spec_suite.rs line 356 but missing from the writer.rs
snapshot. -/
inductive SaveError where
  | InvalidPdf
  | InvalidPageIndex (i : Nat)
  | InvalidDestinationPage (i : Nat)
  | IoError (s : String)
deriving DecidableEq, Repr

/-- Model of one emitted indirect object of the annotation chunk and the
document skeleton.  Appearance streams and font dictionaries are kept
opaque (their payload is not inspected by any claim). -/
inductive PdfObj where
  | catalogObj (pagesRef : Nat)
  | pageTreeObj (kids : List Nat) (count : Nat)
  | apStreamObj
  | fontObj
  | annotDictObj (d : List (String × PdfVal))
  | annotsArrayObj (refs : List Nat)
deriving Repr

/-- Abstraction of the external page extraction (hayro-write): the page
object references it returned and the value of the shared reference
allocator after extraction.  The extractor is an external collaborator of
the core, specified only at its interface (spec section 6). -/
structure Extraction where
  pageRefs : List Nat
  nextFree : Nat

/-- State of the annotation chunk builder: the next reference the
monotone allocator will hand out and the objects emitted so far. -/
structure ChunkSt where
  next : Nat
  objs : List (Nat × PdfObj)

/-- Embedding of the per-annotation body of the chunk loop (writer.rs
lines 144-192): allocate annot_ref and ap_stream_ref, emit the
form-XObject when the appearance stream is nonempty (plus a font object
for FreeText), then emit the annotation dictionary.  Returns the new
state and the allocated annotation reference. -/
def pushAnnot (st : ChunkSt) (a : Annot) : ChunkSt × Nat :=
  let annot_ref := st.next
  let ap_ref := st.next + 1
  let hasAp := ap_content_nonempty a
  let withAp :=
    if hasAp then
      match a with
      | .FreeText _ =>
          (st.next + 3, [(ap_ref, PdfObj.apStreamObj), (st.next + 2, PdfObj.fontObj)])
      | _ => (st.next + 2, [(ap_ref, PdfObj.apStreamObj)])
    else (st.next + 2, ([] : List (Nat × PdfObj)))
  let d := write_annotation_dict a ap_ref hasAp
  ({ next := withAp.1
   , objs := st.objs ++ withAp.2 ++ [(annot_ref, PdfObj.annotDictObj d)] }, annot_ref)

/-- Embedding of the HashMap insert used for page_annot_arrays (writer.rs
line 202): inserting an existing key replaces its value. -/
def insertOv : List (Nat × Nat) → Nat → Nat → List (Nat × Nat)
  | [], k, v => [(k, v)]
  | (k1, v1) :: rest, k, v =>
      if k1 = k then (k, v) :: rest else (k1, v1) :: insertOv rest k v

/-- Lookup in an association list by key. -/
def lookupKey {α : Type} : List (Nat × α) → Nat → Option α
  | [], _ => none
  | (k1, v1) :: rest, k => if k1 = k then some v1 else lookupKey rest k

/-- Embedding of the per-entry body of the chunk loop (writer.rs lines
141-204): process the annotations of the entry in order, then, when at
least one annotation reference was collected, allocate and emit the
/Annots array object and record it in page_annot_arrays under the page
index. -/
def pushEntry (st : ChunkSt) (arrays : List (Nat × Nat))
    (entry : Nat × List Annot) : ChunkSt × List (Nat × Nat) :=
  let folded := entry.2.foldl
    (fun (acc : ChunkSt × List Nat) a =>
      let r := pushAnnot acc.1 a
      (r.1, acc.2 ++ [r.2]))
    (st, [])
  if folded.2.isEmpty then (folded.1, arrays)
  else
    let arr_ref := folded.1.next
    ({ next := folded.1.next + 1
     , objs := folded.1.objs ++ [(arr_ref, PdfObj.annotsArrayObj folded.2)] },
     insertOv arrays entry.1 arr_ref)

/-- Embedding of the full chunk loop over the plan entries (writer.rs
lines 141-204), starting the allocator at the first reference after
extraction. -/
def buildChunk (start : Nat) (plan : List (Nat × List Annot)) :
    ChunkSt × List (Nat × Nat) :=
  plan.foldl (fun acc e => pushEntry acc.1 acc.2 e) ({ next := start, objs := [] }, [])

/-- Embedding of the page-index validation loop (writer.rs lines 86-90):
the first entry whose page index reaches the page count. -/
def firstInvalidPage (plan : List (Nat × List Annot)) (num_pages : Nat) : Option Nat :=
  match plan with
  | [] => none
  | (i, _) :: rest =>
      if num_pages ≤ i then some i else firstInvalidPage rest num_pages

/-- Modelled from the spec: the destination-page check of a single
annotation (spec sections 4.6 and 7) — a Link whose dest_page is at least
the page count is invalid.  This validation is missing from the writer.rs
snapshot. -/
def linkBadDest (num_pages : Nat) : Annot → Option Nat
  | .Link l =>
      match l.dest_page with
      | some d => if num_pages ≤ d then some d else none
      | none => none
  | _ => none

/-- Modelled from the spec: first invalid Link destination among a list of
annotations, in order. -/
def firstInvalidDestList (num_pages : Nat) : List Annot → Option Nat
  | [] => none
  | a :: rest =>
      match linkBadDest num_pages a with
      | some d => some d
      | none => firstInvalidDestList num_pages rest

/-- Modelled from the spec: first invalid Link destination in the plan,
scanning entries and their annotation lists in arrival order. -/
def firstInvalidDest (plan : List (Nat × List Annot)) (num_pages : Nat) : Option Nat :=
  match plan with
  | [] => none
  | (_, l) :: rest =>
      match firstInvalidDestList num_pages l with
      | some d => some d
      | none => firstInvalidDest rest num_pages

/-- Structured result of save_annotations: the emitted objects (catalog,
page tree and annotation chunk; the extracted page subgraph is opaque and
omitted), the final page_annot_arrays map used for page splicing, and
whether the corrective xref/trailer block was appended (writer.rs lines
227-236 run the splicer once per map entry and append the block exactly
when the map is nonempty). -/
structure SaveOutput where
  objects : List (Nat × PdfObj)
  pageAnnotArrays : List (Nat × Nat)
  xref_appended : Bool

/-- Embedding of save_annotations (writer.rs lines 75-239) over the
abstracted parser/extractor: validate page indices (and, modelled from
the spec, Link destination pages), allocate catalog reference 1 and page
tree reference 2, build the annotation chunk starting at the allocator
value left by extraction, and return the structured output.  The
byte-level splicing pass is represented by the pageAnnotArrays map it
consumes; its success on well-formed buffers is assumed at this level of
abstraction (the byte-level splicer itself is embedded and verified
separately below). -/
def save_annotations (num_pages : Nat) (ext : Extraction)
    (plan : List (Nat × List Annot)) : Except SaveError SaveOutput :=
  match firstInvalidPage plan num_pages with
  | some i => Except.error (SaveError.InvalidPageIndex i)
  | none =>
    match firstInvalidDest plan num_pages with
    | some d => Except.error (SaveError.InvalidDestinationPage d)
    | none =>
      let built := buildChunk ext.nextFree plan
      Except.ok
        { objects := (1, PdfObj.catalogObj 2)
            :: (2, PdfObj.pageTreeObj ext.pageRefs ext.pageRefs.length)
            :: built.1.objs
        , pageAnnotArrays := built.2
        , xref_appended := !built.2.isEmpty }

/-- Contents of the /Annots array the output associates with a page: the
array object reference recorded for the page, resolved in the list of
emitted objects. -/
def pageAnnots (out : SaveOutput) (p : Nat) : Option (List Nat) :=
  match lookupKey out.pageAnnotArrays p with
  | none => none
  | some r =>
      match lookupKey out.objects r with
      | some (PdfObj.annotsArrayObj refs) => some refs
      | _ => none

/-- Bytes of an ASCII string, used to embed the byte-string literals of
writer.rs. -/
def strBytes (s : String) : List Nat :=
  s.data.map Char.toNat

/-- Decimal digits of a natural number as ASCII bytes, with an explicit
fuel argument so that the definition is structurally recursive and
kernel-reducible.  The fuel n + 1 always suffices (the recursion divides
by ten). -/
def digitsAux : Nat → Nat → List Nat
  | 0, _ => []
  | fuel + 1, n => if n < 10 then [48 + n] else digitsAux fuel (n / 10) ++ [48 + n % 10]

/-- Decimal ASCII representation of a natural number, embedding the Rust
display formatting of object ids and offsets. -/
def natToDigits (n : Nat) : List Nat :=
  digitsAux (n + 1) n

/-- Embedding of the Rust format specifier 010 used for xref entries:
zero-pad the decimal representation on the left to width ten. -/
def format10 (n : Nat) : List Nat :=
  List.replicate (10 - (natToDigits n).length) 48 ++ natToDigits n

/-- Embedding of find_bytes (writer.rs lines 464-467): index of the first
occurrence of the needle in the haystack.  Recursive worker over the
haystack; position accumulated through the map on the result.  For an
empty needle the Rust windows iterator panics; this model returns 0,
a case no caller exercises. -/
def findAux (needle : List Nat) : List Nat → Option Nat
  | [] => if needle.isEmpty then some 0 else none
  | h :: t =>
      if needle.isPrefixOf (h :: t) then some 0
      else (findAux needle t).map (fun p => p + 1)

/-- Embedding of find_bytes (writer.rs lines 464-467). -/
def find_bytes (haystack needle : List Nat) : Option Nat :=
  findAux needle haystack

/-- Embedding of the scanning loop of find_matching_dict_end (writer.rs
lines 281-306) as a recursion over the unscanned suffix: byte 60 is <,
byte 62 is >.  A << pair increments the depth, a >> pair decrements it
and returns the current index when the depth reaches zero, any other byte
advances by one; fewer than two remaining bytes ends the scan with no
result. -/
def findDictEndAux : List Nat → Nat → Int → Option Nat
  | a :: b :: rest, idx, depth =>
      if a = 60 ∧ b = 60 then findDictEndAux rest (idx + 2) (depth + 1)
      else if a = 62 ∧ b = 62 then
        if depth - 1 = 0 then some idx else findDictEndAux rest (idx + 2) (depth - 1)
      else findDictEndAux (b :: rest) (idx + 1) depth
  | _, _, _ => none

/-- Embedding of find_matching_dict_end (writer.rs lines 278-306):
position of the first > of the matching closing >> for the dictionary
opening at dict_start. -/
def find_matching_dict_end (bytes : List Nat) (dict_start : Nat) : Option Nat :=
  findDictEndAux (bytes.drop dict_start) dict_start 0

/-- Bytes of the page object marker of inject_annots_into_page
(writer.rs line 246). -/
def pageObjMarker (page_ref : Nat) : List Nat :=
  natToDigits page_ref ++ strBytes " 0 obj"

/-- Bytes of the inserted annotation entry of inject_annots_into_page
(writer.rs lines 247 and 270): a line feed, two spaces, the /Annots entry
and a closing line feed. -/
def annotsInsertBytes (annots_ref : Nat) : List Nat :=
  [10, 32, 32] ++ (strBytes "/Annots " ++ natToDigits annots_ref ++ strBytes " 0 R") ++ [10]

/-- Embedding of inject_annots_into_page (writer.rs lines 241-276) on a
byte list: locate the page object marker, the dictionary opener, its
depth-matched end; leave the buffer alone when the span already holds
/Annots, otherwise insert the /Annots entry before the closing
delimiter.  Returns the new buffer and the success flag. -/
def inject_annots_into_page (pdf_bytes : List Nat) (page_ref annots_ref : Nat) :
    List Nat × Bool :=
  match find_bytes pdf_bytes (pageObjMarker page_ref) with
  | none => (pdf_bytes, false)
  | some obj_pos =>
    let search_start := obj_pos + (pageObjMarker page_ref).length
    match find_bytes (pdf_bytes.drop search_start) (strBytes "<<") with
    | none => (pdf_bytes, false)
    | some rel =>
      let dict_start := search_start + rel
      match find_matching_dict_end pdf_bytes dict_start with
      | none => (pdf_bytes, false)
      | some dict_end =>
        if (find_bytes ((pdf_bytes.drop dict_start).take (dict_end - dict_start))
              (strBytes "/Annots")).isSome then
          (pdf_bytes, true)
        else
          (pdf_bytes.take dict_end ++ annotsInsertBytes annots_ref
            ++ pdf_bytes.drop dict_end, true)

/-- Test for the five ASCII whitespace bytes recognized by
u8::is_ascii_whitespace. -/
def isWsByte (b : Nat) : Bool :=
  b == 32 || b == 9 || b == 10 || b == 13 || b == 12

/-- Test for an ASCII decimal digit byte. -/
def isDigitByte (b : Nat) : Bool :=
  48 ≤ b && b ≤ 57

/-- Value of a list of ASCII digit bytes read as a decimal numeral. -/
def digitsToNat (ds : List Nat) : Nat :=
  ds.foldl (fun acc d => acc * 10 + (d - 48)) 0

/-- Embedding of parse_obj_header (writer.rs lines 404-437): skip leading
whitespace, require at least one digit, require the literal bytes of
" 0 obj" right after the digits, and allow only trailing whitespace;
return the parsed object id.  The i32 overflow rejection of the Rust
parse is not modelled (object ids stay far below it). -/
def parse_obj_header (line : List Nat) : Option Nat :=
  let rest := line.dropWhile isWsByte
  let ds := rest.takeWhile isDigitByte
  if ds.isEmpty then none
  else
    let rest2 := rest.dropWhile isDigitByte
    if rest2.take 6 = strBytes " 0 obj" then
      if (rest2.drop 6).all isWsByte then some (digitsToNat ds) else none
    else none

/-- Embedding of the BTreeMap insert used by collect_object_offsets
(writer.rs line 384) on a key-sorted association list: insert in key
order, replacing the value of an existing key. -/
def btreeInsert : List (Nat × Nat) → Nat → Nat → List (Nat × Nat)
  | [], k, v => [(k, v)]
  | (k1, v1) :: rest, k, v =>
      if k < k1 then (k, v) :: (k1, v1) :: rest
      else if k = k1 then (k, v) :: rest
      else (k1, v1) :: btreeInsert rest k v

/-- Insertion step of the collect loop: when the finished line parses as
an object header, record the object id at the line-start offset. -/
def insertHeader (acc : List (Nat × Nat)) (line_start : Nat) (line : List Nat) :
    List (Nat × Nat) :=
  match parse_obj_header line with
  | some id => btreeInsert acc id line_start
  | none => acc

/-- Embedding of the line-scanning loop of collect_object_offsets
(writer.rs lines 370-402) as a recursion over the unscanned suffix.
line_start is the offset of the current line, cur the bytes of the
current line read so far.  A carriage return directly followed by a line
feed consumes both bytes, any other terminator one byte; the end of the
buffer also ends the current line (the Rust loop runs with idx up to and
including the length). -/
def collectAux : List Nat → Nat → List Nat → List (Nat × Nat) → List (Nat × Nat)
  | [], line_start, cur, acc => insertHeader acc line_start cur
  | [b], line_start, cur, acc =>
      if b = 13 ∨ b = 10 then
        collectAux [] (line_start + cur.length + 1) [] (insertHeader acc line_start cur)
      else collectAux [] line_start (cur ++ [b]) acc
  | b :: b2 :: bs, line_start, cur, acc =>
      if b = 13 ∧ b2 = 10 then
        collectAux bs (line_start + cur.length + 2) [] (insertHeader acc line_start cur)
      else if b = 13 ∨ b = 10 then
        collectAux (b2 :: bs) (line_start + cur.length + 1) [] (insertHeader acc line_start cur)
      else collectAux (b2 :: bs) line_start (cur ++ [b]) acc

/-- Embedding of collect_object_offsets (writer.rs lines 370-402): the
object id to line-start-offset map of every line matching an indirect
object header, as a key-sorted association list. -/
def collect_object_offsets (pdf_bytes : List Nat) : List (Nat × Nat) :=
  collectAux pdf_bytes 0 [] []

/-- Last key of a key-sorted association list, or 0 when empty,
embedding keys().next_back().unwrap_or(0) on a BTreeMap. -/
def lastKey (l : List (Nat × Nat)) : Nat :=
  ((l.map Prod.fst).getLast?).getD 0

/-- Embedding of the free-entry chain lookup in
append_updated_xref_and_trailer (writer.rs lines 336-345): advance the
next-free pointer past the run of consecutive in-use ids. -/
def skipUsed : Nat → List (Nat × Nat) → Nat
  | next, [] => next
  | next, (used_id, _) :: rest =>
      if next < used_id then next else skipUsed (used_id + 1) rest

/-- Embedding of one free xref row (writer.rs lines 336-352): the
next-free pointer reduced modulo the table size, the generation 65535 for
id 0 and 00000 otherwise, the marker f and CRLF. -/
def freeRow (xref_len object_id : Nat) (cur : List (Nat × Nat)) (free_id : Nat) :
    List Nat :=
  let next0 := free_id + 1
  let next1 := if next0 = object_id then skipUsed next0 cur else next0
  format10 (next1 % xref_len)
    ++ [32] ++ (if free_id = 0 then strBytes "65535" else strBytes "00000")
    ++ strBytes " f" ++ [13, 10]

/-- Embedding of one in-use xref row (writer.rs line 354): the ten-digit
offset, the generation 00000, the marker n and CRLF. -/
def inUseRow (offset : Nat) : List Nat :=
  format10 offset ++ strBytes " 00000 n" ++ [13, 10]

/-- Embedding of the xref row loop (writer.rs lines 329-356): for each
in-use id in ascending order, first the free rows for the gap below it,
then its in-use row; written counts the rows already emitted. -/
def xrefRows (xref_len : Nat) : List (Nat × Nat) → Nat → List (List Nat)
  | [], _ => []
  | (object_id, offset) :: rest, written =>
      ((List.range' written (object_id - written)).map
          (freeRow xref_len object_id ((object_id, offset) :: rest)))
        ++ inUseRow offset :: xrefRows xref_len rest (written + (object_id - written) + 1)

/-- Embedding of the full xref entry block (writer.rs lines 329-356),
including the dead head-of-free-list row the Rust code writes when the
offset list is empty (unreachable behind the emptiness guard). -/
def xrefSectionRows (offsets : List (Nat × Nat)) : List (List Nat) :=
  (if offsets.isEmpty then [strBytes "0000000000 65535 f" ++ [13, 10]] else [])
    ++ xrefRows (1 + lastKey offsets) offsets 0

/-- Positions of every occurrence of the needle in the haystack, used to
embed the reverse search of windows().rposition(). -/
def rfind_bytes (haystack needle : List Nat) : Option Nat :=
  ((List.range (haystack.length + 1)).filter
      (fun p => needle.isPrefixOf (haystack.drop p))).getLast?

/-- Embedding of find_last_startxref (writer.rs lines 439-462): rightmost
startxref keyword, skip whitespace, parse the following decimal run. -/
def find_last_startxref (pdf_bytes : List Nat) : Option Nat :=
  match rfind_bytes pdf_bytes (strBytes "startxref") with
  | none => none
  | some mp =>
      let rest := (pdf_bytes.drop (mp + 9)).dropWhile isWsByte
      let ds := rest.takeWhile isDigitByte
      if ds.isEmpty then none else some (digitsToNat ds)

/-- Embedding of append_updated_xref_and_trailer (writer.rs lines
308-368): when the offset scan found at least one object, append one
newline, the xref keyword and subsection header, the rows, the trailer
dictionary (with /Prev when an earlier startxref exists) and the
startxref block whose recorded offset is the pre-append length plus
one. -/
def append_updated_xref_and_trailer (pdf_bytes : List Nat) (catalog_ref : Nat) :
    List Nat :=
  let offsets := collect_object_offsets pdf_bytes
  if offsets.isEmpty then pdf_bytes
  else
    let xref_len := 1 + lastKey offsets
    pdf_bytes ++ 10 ::
      (strBytes "xref" ++ [10] ++ strBytes "0 " ++ natToDigits xref_len ++ [10]
        ++ (xrefSectionRows offsets).flatten
        ++ strBytes "trailer" ++ [10] ++ strBytes "<<" ++ [10]
        ++ strBytes "  /Size " ++ natToDigits xref_len ++ [10]
        ++ strBytes "  /Root " ++ natToDigits catalog_ref ++ strBytes " 0 R" ++ [10]
        ++ (match find_last_startxref pdf_bytes with
            | some p => strBytes "  /Prev " ++ natToDigits p ++ [10]
            | none => [])
        ++ strBytes ">>" ++ [10]
        ++ strBytes "startxref" ++ [10]
        ++ natToDigits (pdf_bytes.length + 1) ++ [10]
        ++ strBytes "%%EOF")

/-- Test for a byte that does not terminate a line. -/
def nonTerm (b : Nat) : Bool :=
  b != 10 && b != 13

/-- Line of a buffer beginning at position p: the bytes from p up to the
first line terminator or the end of the buffer. -/
def lineAt (bytes : List Nat) (p : Nat) : List Nat :=
  (bytes.drop p).takeWhile nonTerm

/-- Test that position p starts a line of the buffer: the buffer start or
a position directly after a line feed or carriage return. -/
def lineStartB (bytes : List Nat) (p : Nat) : Bool :=
  p == 0 ||
    (match bytes[p - 1]? with
     | some c => c == 10 || c == 13
     | none => false)

/-- Occurrence of the needle at position p of the haystack, the notion of
match underlying the windows-based searches of writer.rs. -/
def prefixAt (haystack needle : List Nat) (p : Nat) : Prop :=
  (haystack.drop p).take needle.length = needle

/-- Sample extraction result for concrete scenarios: a one-page document
whose extracted page subgraph is the single object 3, leaving the shared
allocator at 4. -/
def extOne : Extraction :=
  { pageRefs := [3], nextFree := 4 }

/-- Sample highlight annotation with default base and no quad points. -/
def hlPlain : Annot :=
  Annot.Highlight { base := AnnotationBase.default, quad_points := [] }

/-- Sample highlight annotation with ten quad-point values, the input of
the repository test on quad-point truncation (tests/spec_suite.rs lines
64-84). -/
def hlTenQuads : Annot :=
  Annot.Highlight { base := AnnotationBase.default
                  , quad_points := [1, 2, 3, 4, 5, 6, 7, 8, 9, 10] }

/-- Sample highlight annotation with the reversed rectangle of the
repository normalization test (tests/spec_suite.rs lines 398-429). -/
def hlRevRect : Annot :=
  Annot.Highlight
    { base := { AnnotationBase.default with rect := (150, 100, 50, 20) }
    , quad_points := [] }

/-- Sample highlight annotation with the out-of-range color and opacity
of the repository clamping test (tests/spec_suite.rs lines 398-429). -/
def hlWildColor : Annot :=
  Annot.Highlight
    { base := { AnnotationBase.default with
                  rect := (150, 100, 50, 20)
                , color := some { r := -(1/2), g := 2, b := 1/4 }
                , opacity := -(2/5) }
    , quad_points := [] }

/-- Sample free-text annotation whose base contents field is absent, the
input of the repository fallback test (tests/spec_suite.rs lines
122-148). -/
def ftNoContents : Annot :=
  Annot.FreeText { base := AnnotationBase.default
                 , text := "hello free text"
                 , font_size := 12
                 , default_appearance := "0 0 0 rg /Helv 12 Tf" }

/-- Sample link annotation targeting destination page 9, the input of the
repository error test (tests/spec_suite.rs lines 343-357). -/
def linkDest9 : Annot :=
  Annot.Link { base := AnnotationBase.default, uri := none, dest_page := some 9 }

/-- Sample text-field widget with a value, default 512-character limit
and no flag bits, mirroring the hayro-demo construction site. -/
def tfSample : TextFieldAnnot :=
  { base := AnnotationBase.default
  , field_name := "name"
  , value := some "Alice"
  , default_value := none
  , max_len := some 32
  , default_appearance := "0 0 0 rg /Helv 10 Tf"
  , read_only := false
  , required := true
  , multiline := false }

/-- Sample signature-field widget with a tooltip, mirroring the
hayro-demo construction site. -/
def sfSample : SignatureFieldAnnot :=
  { base := AnnotationBase.default
  , field_name := "signature"
  , tooltip := some "Sign here"
  , required := true }

/-- Kinds of the annotation union, one per arm of the spec section 4.3
table. -/
inductive AnnotKind where
  | Highlight | Underline | StrikeOut | Squiggly | FreeText | Ink
  | Square | Circle | Line | Text | Link | TextField | SignatureField
deriving DecidableEq, Repr

/-- Kind tag of an annotation. -/
def annotKind : Annot → AnnotKind
  | .Highlight _ => .Highlight
  | .Underline _ => .Underline
  | .StrikeOut _ => .StrikeOut
  | .Squiggly _ => .Squiggly
  | .FreeText _ => .FreeText
  | .Ink _ => .Ink
  | .Square _ => .Square
  | .Circle _ => .Circle
  | .Line _ => .Line
  | .Text _ => .Text
  | .Link _ => .Link
  | .TextField _ => .TextField
  | .SignatureField _ => .SignatureField

/-- Representative annotation of each kind, witnessing that the union
covers every arm. -/
def kindSample : AnnotKind → Annot
  | .Highlight => Annot.Highlight { base := AnnotationBase.default, quad_points := [] }
  | .Underline => Annot.Underline { base := AnnotationBase.default, quad_points := [] }
  | .StrikeOut => Annot.StrikeOut { base := AnnotationBase.default, quad_points := [] }
  | .Squiggly => Annot.Squiggly { base := AnnotationBase.default, quad_points := [] }
  | .FreeText => Annot.FreeText { base := AnnotationBase.default, text := ""
                                , font_size := 12, default_appearance := "" }
  | .Ink => Annot.Ink { base := AnnotationBase.default, ink_list := [], line_width := 1 }
  | .Square => Annot.Square { base := AnnotationBase.default, interior_color := none
                            , line_width := 1, is_circle := false }
  | .Circle => Annot.Circle { base := AnnotationBase.default, interior_color := none
                            , line_width := 1, is_circle := true }
  | .Line => Annot.Line { base := AnnotationBase.default, start := (0, 0)
                        , end_pt := (0, 0), line_width := 1 }
  | .Text => Annot.Text { base := AnnotationBase.default, open_popup := false, icon := "Note" }
  | .Link => Annot.Link { base := AnnotationBase.default, uri := none, dest_page := none }
  | .TextField => Annot.TextField tfSample
  | .SignatureField => Annot.SignatureField sfSample

end Hayro

namespace Hayro

theorem firstInvalidPage_eq_none (plan : List (Nat × List Annot)) (n : Nat)
    (h : ∀ e ∈ plan, e.1 < n) : firstInvalidPage plan n = none := by
  induction plan with
  | nil => rfl
  | cons e rest ih =>
      obtain ⟨i, l⟩ := e
      have hi : i < n := h (i, l) (List.mem_cons_self _ _)
      simp only [firstInvalidPage, if_neg (by omega : ¬ n ≤ i)]
      exact ih (fun e he => h e (List.mem_cons_of_mem _ he))

theorem firstInvalidPage_some_ge (plan : List (Nat × List Annot)) (n j : Nat)
    (h : firstInvalidPage plan n = some j) : n ≤ j := by
  induction plan with
  | nil => simp [firstInvalidPage] at h
  | cons e rest ih =>
      obtain ⟨i, l⟩ := e
      by_cases hc : n ≤ i
      · simp only [firstInvalidPage, if_pos hc, Option.some.injEq] at h
        omega
      · simp only [firstInvalidPage, if_neg hc] at h
        exact ih h

theorem firstInvalidPage_isSome (plan : List (Nat × List Annot)) (n i : Nat)
    (l : List Annot) (hmem : (i, l) ∈ plan) (hi : n ≤ i) :
    (firstInvalidPage plan n).isSome := by
  induction plan with
  | nil => cases hmem
  | cons e rest ih =>
      obtain ⟨i1, l1⟩ := e
      by_cases hc : n ≤ i1
      · simp [firstInvalidPage, if_pos hc]
      · simp only [firstInvalidPage, if_neg hc]
        rcases List.mem_cons.mp hmem with heq | hrest
        · cases heq; omega
        · exact ih hrest

theorem firstInvalidDestList_some_src (l : List Annot) (n d : Nat)
    (h : firstInvalidDestList n l = some d) :
    ∃ la, Annot.Link la ∈ l ∧ la.dest_page = some d ∧ n ≤ d := by
  induction l with
  | nil => simp [firstInvalidDestList] at h
  | cons a rest ih =>
      simp only [firstInvalidDestList] at h
      cases ha : linkBadDest n a with
      | some d1 =>
          rw [ha] at h
          cases h
          cases a with
          | Link la =>
              cases hdp : la.dest_page with
              | none => simp [linkBadDest, hdp] at ha
              | some d2 =>
                  simp only [linkBadDest, hdp] at ha
                  by_cases hge : n ≤ d2
                  · rw [if_pos hge] at ha
                    cases ha
                    exact ⟨la, List.mem_cons_self _ _, hdp, hge⟩
                  · rw [if_neg hge] at ha; cases ha
          | Highlight a => simp [linkBadDest] at ha
          | Underline a => simp [linkBadDest] at ha
          | StrikeOut a => simp [linkBadDest] at ha
          | Squiggly a => simp [linkBadDest] at ha
          | FreeText a => simp [linkBadDest] at ha
          | Ink a => simp [linkBadDest] at ha
          | Square a => simp [linkBadDest] at ha
          | Circle a => simp [linkBadDest] at ha
          | Line a => simp [linkBadDest] at ha
          | Text a => simp [linkBadDest] at ha
          | TextField a => simp [linkBadDest] at ha
          | SignatureField a => simp [linkBadDest] at ha
      | none =>
          rw [ha] at h
          obtain ⟨la, hm, hd, hn⟩ := ih h
          exact ⟨la, List.mem_cons_of_mem _ hm, hd, hn⟩

theorem firstInvalidDestList_isSome (l : List Annot) (n d : Nat)
    (la : LinkAnnot) (hmem : Annot.Link la ∈ l) (hd : la.dest_page = some d)
    (hge : n ≤ d) : (firstInvalidDestList n l).isSome := by
  induction l with
  | nil => cases hmem
  | cons a rest ih =>
      simp only [firstInvalidDestList]
      cases ha : linkBadDest n a with
      | some d1 => simp
      | none =>
          simp only [Option.isSome]
          rcases List.mem_cons.mp hmem with heq | hrest
          · subst heq
            simp [linkBadDest, hd, if_pos hge] at ha
          · have := ih hrest
            cases hres : firstInvalidDestList n rest with
            | none => rw [hres] at this; simp at this
            | some x => simp

theorem firstInvalidDest_some_src (plan : List (Nat × List Annot)) (n d : Nat)
    (h : firstInvalidDest plan n = some d) :
    ∃ e ∈ plan, ∃ la, Annot.Link la ∈ e.2 ∧ la.dest_page = some d ∧ n ≤ d := by
  induction plan with
  | nil => simp [firstInvalidDest] at h
  | cons e rest ih =>
      obtain ⟨i, l⟩ := e
      simp only [firstInvalidDest] at h
      cases hl : firstInvalidDestList n l with
      | some d1 =>
          rw [hl] at h
          cases h
          obtain ⟨la, hm, hd, hn⟩ := firstInvalidDestList_some_src l n d hl
          exact ⟨(i, l), List.mem_cons_self _ _, la, hm, hd, hn⟩
      | none =>
          rw [hl] at h
          obtain ⟨e1, he1, la, hm, hd, hn⟩ := ih h
          exact ⟨e1, List.mem_cons_of_mem _ he1, la, hm, hd, hn⟩

theorem firstInvalidDest_isSome (plan : List (Nat × List Annot)) (n d : Nat)
    (e : Nat × List Annot) (la : LinkAnnot) (hmem : e ∈ plan)
    (hla : Annot.Link la ∈ e.2) (hd : la.dest_page = some d) (hge : n ≤ d) :
    (firstInvalidDest plan n).isSome := by
  induction plan with
  | nil => cases hmem
  | cons e1 rest ih =>
      obtain ⟨i, l⟩ := e1
      simp only [firstInvalidDest]
      cases hl : firstInvalidDestList n l with
      | some d1 => simp
      | none =>
          rcases List.mem_cons.mp hmem with heq | hrest
          · subst heq
            have := firstInvalidDestList_isSome l n d la hla hd hge
            rw [hl] at this
            simp at this
          · have := ih hrest
            cases hres : firstInvalidDest rest n with
            | none => rw [hres] at this; simp at this
            | some x => simp

theorem firstInvalidDest_none_of_empty (plan : List (Nat × List Annot)) (n : Nat)
    (h : ∀ e ∈ plan, e.2 = ([] : List Annot)) : firstInvalidDest plan n = none := by
  induction plan with
  | nil => rfl
  | cons e rest ih =>
      obtain ⟨i, l⟩ := e
      have hl : l = [] := h (i, l) (List.mem_cons_self _ _)
      subst hl
      simp only [firstInvalidDest, firstInvalidDestList]
      exact ih (fun e he => h e (List.mem_cons_of_mem _ he))

theorem buildChunk_all_empty (plan : List (Nat × List Annot)) (st : ChunkSt)
    (arrays : List (Nat × Nat)) (h : ∀ e ∈ plan, e.2 = ([] : List Annot)) :
    plan.foldl (fun acc e => pushEntry acc.1 acc.2 e) (st, arrays) = (st, arrays) := by
  induction plan generalizing st arrays with
  | nil => rfl
  | cons e rest ih =>
      obtain ⟨i, l⟩ := e
      have hl : l = [] := h (i, l) (List.mem_cons_self _ _)
      subst hl
      simp only [List.foldl_cons]
      have hstep : pushEntry st arrays (i, []) = (st, arrays) := by
        simp [pushEntry]
      rw [hstep]
      exact ih st arrays (fun e he => h e (List.mem_cons_of_mem _ he))

/-- C1: the claim fails on the code.  Scheduling the same page index in
two plan entries is not equivalent to one entry with the concatenated
list: the HashMap insert at writer.rs line 202 overwrites the /Annots
array reference recorded for the first entry, so the final page carries
only the /Annots array of the second entry (here the single reference 7)
while the concatenated plan carries both annotation references (4 and 6).
The repository test duplicate_page_entries_are_merged
(tests/spec_suite.rs lines 431-452) expects both to be preserved. -/
theorem c1_duplicate_page_index_overwrites :
    ((save_annotations 1 extOne [(0, [hlPlain]), (0, [hlPlain])]).map
        (fun o => pageAnnots o 0) = Except.ok (some [7]))
    ∧ ((save_annotations 1 extOne [(0, [hlPlain, hlPlain])]).map
        (fun o => pageAnnots o 0) = Except.ok (some [4, 6]))
    ∧ ([7] : List Nat) ≠ [4, 6] ∧ ([7] : List Nat).length = 1 := by
  refine ⟨rfl, rfl, by decide, rfl⟩

/-- C2: a plan whose page indices are all valid but which contains a Link
annotation with an out-of-range destination page makes save_annotations
return InvalidDestinationPage carrying an out-of-range destination index
taken from such a Link, and no output is produced.  The validation is
modelled from the spec (sections 4.6 and 7); it is missing from the
writer.rs snapshot although tests/spec_suite.rs line 356 requires it. -/
theorem c2_invalid_destination_page (num_pages : Nat) (ext : Extraction)
    (plan : List (Nat × List Annot))
    (hvalid : ∀ e ∈ plan, e.1 < num_pages)
    (hbad : ∃ e ∈ plan, ∃ la, Annot.Link la ∈ e.2 ∧
        ∃ d, la.dest_page = some d ∧ num_pages ≤ d) :
    ∃ j, num_pages ≤ j
      ∧ (∃ e ∈ plan, ∃ la, Annot.Link la ∈ e.2 ∧ la.dest_page = some j)
      ∧ save_annotations num_pages ext plan
          = Except.error (SaveError.InvalidDestinationPage j)
      ∧ ∀ o, save_annotations num_pages ext plan ≠ Except.ok o := by
  have hpage : firstInvalidPage plan num_pages = none :=
    firstInvalidPage_eq_none plan num_pages hvalid
  obtain ⟨e, he, la, hla, d, hd, hged⟩ := hbad
  have hsome : (firstInvalidDest plan num_pages).isSome :=
    firstInvalidDest_isSome plan num_pages d e la he hla hd hged
  cases hdest : firstInvalidDest plan num_pages with
  | none => rw [hdest] at hsome; simp at hsome
  | some j =>
      obtain ⟨e1, he1, la1, hla1, hdp1, hge1⟩ :=
        firstInvalidDest_some_src plan num_pages j hdest
      refine ⟨j, hge1, ⟨e1, he1, la1, hla1, hdp1⟩, ?_, ?_⟩
      · simp [save_annotations, hpage, hdest]
      · intro o
        simp [save_annotations, hpage, hdest]

/-- Witness for C2 at the concrete scenario of the spec: a one-page
document and a Link with destination page 9. -/
theorem c2_invalid_destination_page_witness :
    ∃ j, 1 ≤ j
      ∧ (∃ e ∈ [(0, [linkDest9])], ∃ la, Annot.Link la ∈ e.2 ∧ la.dest_page = some j)
      ∧ save_annotations 1 extOne [(0, [linkDest9])]
          = Except.error (SaveError.InvalidDestinationPage j)
      ∧ ∀ o, save_annotations 1 extOne [(0, [linkDest9])] ≠ Except.ok o :=
  c2_invalid_destination_page 1 extOne [(0, [linkDest9])]
    (by intro e he; simp at he; subst he; decide)
    ⟨(0, [linkDest9]), by simp,
      { base := AnnotationBase.default, uri := none, dest_page := some 9 },
      by simp [linkDest9], 9, rfl, by omega⟩

/-- C4: the claim fails on the code.  The writer.rs snapshot passes every
quad-point value through to /QuadPoints (lines 511-534); with the
ten-value input of the repository truncation test the emitted array has
ten elements where the claim requires 8 = 8 * floor(10 / 8).  The test
markup_quadpoints_are_truncated_to_multiple_of_eight
(tests/spec_suite.rs lines 64-84) expects eight. -/
theorem c4_quadpoints_not_truncated :
    dictGet (write_annotation_dict hlTenQuads 5 true) "QuadPoints"
      = some (PdfVal.arr (([1, 2, 3, 4, 5, 6, 7, 8, 9, 10] : List ℚ).map PdfVal.num))
    ∧ (([1, 2, 3, 4, 5, 6, 7, 8, 9, 10] : List ℚ).map PdfVal.num).length = 10
    ∧ 8 * (10 / 8) = 8 ∧ (10 : Nat) ≠ 8 := by
  refine ⟨rfl, rfl, rfl, by decide⟩

/-- C5: the claim fails on the code.  The writer.rs snapshot emits the
four rect coordinates verbatim (lines 480-485); with the reversed input
rect of the repository normalization test the emitted /Rect is
(150, 100, 50, 20), violating x0 le x1.  The test
rect_color_and_opacity_are_normalized_and_clamped (tests/spec_suite.rs
lines 398-429) expects (50, 20, 150, 100). -/
theorem c5_rect_not_normalized :
    dictGet (write_annotation_dict hlRevRect 5 true) "Rect"
      = some (PdfVal.arr [PdfVal.num 150, PdfVal.num 100, PdfVal.num 50, PdfVal.num 20])
    ∧ ¬ ((150 : ℚ) ≤ 50) ∧ ¬ ((100 : ℚ) ≤ 20) := by
  refine ⟨rfl, by norm_num, by norm_num⟩

/-- C6: the claim fails on the code.  The writer.rs snapshot writes the
color components and the opacity verbatim (lines 490-504): with the
out-of-range input of the repository clamping test the emitted /C is
(-1/2, 2, 1/4) with components outside the unit interval and /CA is -2/5
rather than the claimed 0.  Only the omission rule holds: /CA is written
exactly when the opacity is below 1.  The test
rect_color_and_opacity_are_normalized_and_clamped (tests/spec_suite.rs
lines 398-429) expects /C = (0, 1, 1/4) and /CA = 0. -/
theorem c6_color_opacity_not_clamped :
    dictGet (write_annotation_dict hlWildColor 5 true) "C"
      = some (PdfVal.arr [PdfVal.num (-(1/2)), PdfVal.num 2, PdfVal.num (1/4)])
    ∧ dictGet (write_annotation_dict hlWildColor 5 true) "CA"
        = some (PdfVal.num (-(2/5)))
    ∧ ((-(1/2) : ℚ) < 0) ∧ ((1 : ℚ) < 2) ∧ ((-(2/5) : ℚ) < 0) ∧ ((-(2/5) : ℚ) ≠ 0) := by
  refine ⟨?_, ?_, by norm_num, by norm_num, by norm_num, by norm_num⟩
  · simp [hlWildColor, write_annotation_dict, baseEntries, subtypeEntries, dictGet,
      AnnotationBase.default, Annot.base, quadPointEntries]
  · simp [hlWildColor, write_annotation_dict, baseEntries, subtypeEntries, dictGet,
      AnnotationBase.default, Annot.base, quadPointEntries]
    norm_num

/-- C7: the claim fails on the code.  The writer.rs snapshot writes
/Contents only when the base contents field is set (lines 498-500) and
its FreeText arm (lines 535-541) has no fallback to the text field, so a
FreeText annotation with absent contents is emitted without any /Contents
entry.  The test freetext_sets_contents_fallback_when_missing
(tests/spec_suite.rs lines 122-148) expects /Contents to equal the text
field. -/
theorem c7_freetext_contents_fallback_missing :
    (Annot.base ftNoContents).contents = none
    ∧ dictGet (write_annotation_dict ftNoContents 5 true) "Contents" = none := by
  refine ⟨rfl, rfl⟩

/-- C3: the annotation union covers every arm of the spec section 4.3
table, including the two form-field widgets (the section lists thirteen
subtype rows; the count of twelve in spec section 3 counts the Square and
Circle arms, which share the ShapeAnnot record, as one).  For every
TextField the emitted dictionary carries Widget subtype with /FT /Tx,
/T, /DA, the /Ff word whose bits 0, 1 and 12 are the read-only, required
and multiline flags, and /V, /DV, /MaxLen whenever those inputs are set;
for every SignatureField it carries Widget subtype with /FT /Sig, /T,
/TU whenever the tooltip is set, and the /Ff word whose bit 1 is the
required flag.  The widget arms of write_annotation_dict are modelled
from the spec (they are missing from the writer.rs snapshot, while
appearance.rs and hayro-demo use both constructors). -/
theorem c3_tagged_union_and_widget_dicts :
    (∀ k : AnnotKind, ∃ a : Annot, annotKind a = k)
    ∧ (∀ (tf : TextFieldAnnot) (apr : Nat) (hap : Bool),
        ("Subtype", PdfVal.name "Widget") ∈ write_annotation_dict (Annot.TextField tf) apr hap
        ∧ ("FT", PdfVal.name "Tx") ∈ write_annotation_dict (Annot.TextField tf) apr hap
        ∧ ("T", PdfVal.str tf.field_name) ∈ write_annotation_dict (Annot.TextField tf) apr hap
        ∧ ("DA", PdfVal.str tf.default_appearance)
            ∈ write_annotation_dict (Annot.TextField tf) apr hap
        ∧ ("Ff", PdfVal.num ((textFieldFf tf : Nat) : ℚ))
            ∈ write_annotation_dict (Annot.TextField tf) apr hap
        ∧ (textFieldFf tf).testBit 0 = tf.read_only
        ∧ (textFieldFf tf).testBit 1 = tf.required
        ∧ (textFieldFf tf).testBit 12 = tf.multiline
        ∧ (∀ v, tf.value = some v →
            ("V", PdfVal.str v) ∈ write_annotation_dict (Annot.TextField tf) apr hap)
        ∧ (∀ v, tf.default_value = some v →
            ("DV", PdfVal.str v) ∈ write_annotation_dict (Annot.TextField tf) apr hap)
        ∧ (∀ m, tf.max_len = some m →
            ("MaxLen", PdfVal.num (m : ℚ)) ∈ write_annotation_dict (Annot.TextField tf) apr hap))
    ∧ (∀ (sf : SignatureFieldAnnot) (apr : Nat) (hap : Bool),
        ("Subtype", PdfVal.name "Widget")
            ∈ write_annotation_dict (Annot.SignatureField sf) apr hap
        ∧ ("FT", PdfVal.name "Sig") ∈ write_annotation_dict (Annot.SignatureField sf) apr hap
        ∧ ("T", PdfVal.str sf.field_name)
            ∈ write_annotation_dict (Annot.SignatureField sf) apr hap
        ∧ ("Ff", PdfVal.num ((sigFieldFf sf : Nat) : ℚ))
            ∈ write_annotation_dict (Annot.SignatureField sf) apr hap
        ∧ (sigFieldFf sf).testBit 1 = sf.required
        ∧ (∀ t, sf.tooltip = some t →
            ("TU", PdfVal.str t) ∈ write_annotation_dict (Annot.SignatureField sf) apr hap)) := by
  refine ⟨fun k => ⟨kindSample k, ?_⟩, ?_, ?_⟩
  · cases k <;> rfl
  · intro tf apr hap
    refine ⟨?_, ?_, ?_, ?_, ?_, ?_, ?_, ?_, ?_, ?_, ?_⟩
    · simp [write_annotation_dict, subtypeEntries]
    · simp [write_annotation_dict, subtypeEntries]
    · simp [write_annotation_dict, subtypeEntries]
    · simp [write_annotation_dict, subtypeEntries]
    · simp [write_annotation_dict, subtypeEntries]
    · cases hro : tf.read_only <;> cases hrq : tf.required <;> cases hml : tf.multiline <;>
        (simp [textFieldFf, hro, hrq, hml]; try decide)
    · cases hro : tf.read_only <;> cases hrq : tf.required <;> cases hml : tf.multiline <;>
        (simp [textFieldFf, hro, hrq, hml]; try decide)
    · cases hro : tf.read_only <;> cases hrq : tf.required <;> cases hml : tf.multiline <;>
        (simp [textFieldFf, hro, hrq, hml]; try decide)
    · intro v hv; simp [write_annotation_dict, subtypeEntries, hv]
    · intro v hv; simp [write_annotation_dict, subtypeEntries, hv]
    · intro m hm; simp [write_annotation_dict, subtypeEntries, hm]
  · intro sf apr hap
    refine ⟨?_, ?_, ?_, ?_, ?_, ?_⟩
    · simp [write_annotation_dict, subtypeEntries]
    · simp [write_annotation_dict, subtypeEntries]
    · simp [write_annotation_dict, subtypeEntries]
    · simp [write_annotation_dict, subtypeEntries]
    · cases hrq : sf.required <;> (simp [sigFieldFf, hrq]; try decide)
    · intro t ht; simp [write_annotation_dict, subtypeEntries, ht]

/-- Witness for C3 at the concrete sample widgets: the union reaches the
TextField kind, the sample text field emits its /V and /MaxLen entries
and the sample signature field emits its /TU entry. -/
theorem c3_tagged_union_and_widget_dicts_witness :
    (∃ a : Annot, annotKind a = AnnotKind.TextField)
    ∧ ("V", PdfVal.str "Alice") ∈ write_annotation_dict (Annot.TextField tfSample) 5 true
    ∧ ("MaxLen", PdfVal.num ((32 : Nat) : ℚ))
        ∈ write_annotation_dict (Annot.TextField tfSample) 5 true
    ∧ ("TU", PdfVal.str "Sign here")
        ∈ write_annotation_dict (Annot.SignatureField sfSample) 5 true :=
  ⟨c3_tagged_union_and_widget_dicts.1 AnnotKind.TextField,
   (c3_tagged_union_and_widget_dicts.2.1 tfSample 5 true).2.2.2.2.2.2.2.2.1 "Alice" rfl,
   (c3_tagged_union_and_widget_dicts.2.1 tfSample 5 true).2.2.2.2.2.2.2.2.2.2 32 rfl,
   (c3_tagged_union_and_widget_dicts.2.2 sfSample 5 true).2.2.2.2.2 "Sign here" rfl⟩

/-- C10: plan entries with empty annotation lists are still validated
against the page count, an out-of-range index producing InvalidPageIndex
even though no annotation is scheduled; and when every entry has an empty
list (and validation passes) the output contains no /Annots array object,
records no page to splice, and appends no xref/trailer block. -/
theorem c10_empty_entries :
    (∀ (num_pages : Nat) (ext : Extraction) (plan : List (Nat × List Annot)) (i : Nat),
        (i, ([] : List Annot)) ∈ plan → num_pages ≤ i →
        ∃ j, num_pages ≤ j ∧
          save_annotations num_pages ext plan
            = Except.error (SaveError.InvalidPageIndex j))
    ∧ (∀ (num_pages : Nat) (ext : Extraction) (plan : List (Nat × List Annot)),
        (∀ e ∈ plan, e.2 = ([] : List Annot)) → (∀ e ∈ plan, e.1 < num_pages) →
        ∃ o, save_annotations num_pages ext plan = Except.ok o
          ∧ o.pageAnnotArrays = [] ∧ o.xref_appended = false
          ∧ ∀ io ∈ o.objects, ∀ refs, io.2 ≠ PdfObj.annotsArrayObj refs) := by
  constructor
  · intro num_pages ext plan i hmem hge
    have hsome : (firstInvalidPage plan num_pages).isSome :=
      firstInvalidPage_isSome plan num_pages i [] hmem hge
    cases hfp : firstInvalidPage plan num_pages with
    | none => rw [hfp] at hsome; simp at hsome
    | some j =>
        refine ⟨j, firstInvalidPage_some_ge plan num_pages j hfp, ?_⟩
        simp [save_annotations, hfp]
  · intro num_pages ext plan hempty hvalid
    have hpage : firstInvalidPage plan num_pages = none :=
      firstInvalidPage_eq_none plan num_pages hvalid
    have hdest : firstInvalidDest plan num_pages = none :=
      firstInvalidDest_none_of_empty plan num_pages hempty
    have hbuild : buildChunk ext.nextFree plan
        = ({ next := ext.nextFree, objs := [] }, []) := by
      unfold buildChunk
      exact buildChunk_all_empty plan _ [] hempty
    refine ⟨{ objects := [(1, PdfObj.catalogObj 2),
                (2, PdfObj.pageTreeObj ext.pageRefs ext.pageRefs.length)]
            , pageAnnotArrays := [], xref_appended := false }, ?_, rfl, rfl, ?_⟩
    · simp [save_annotations, hpage, hdest, hbuild]
    · intro io hio refs
      rcases List.mem_cons.mp hio with h1 | h2
      · subst h1; simp
      · rcases List.mem_cons.mp h2 with h3 | h4
        · subst h3; simp
        · cases h4

/-- Witness for C10 at concrete inputs: the entry (5, empty list) on a
one-page document triggers InvalidPageIndex, and the plan with the single
entry (0, empty list) produces an output with no splicing and no appended
xref block. -/
theorem c10_empty_entries_witness :
    (∃ j, 1 ≤ j ∧ save_annotations 1 extOne [(5, ([] : List Annot))]
        = Except.error (SaveError.InvalidPageIndex j))
    ∧ (∃ o, save_annotations 1 extOne [(0, ([] : List Annot))] = Except.ok o
        ∧ o.pageAnnotArrays = [] ∧ o.xref_appended = false
        ∧ ∀ io ∈ o.objects, ∀ refs, io.2 ≠ PdfObj.annotsArrayObj refs) :=
  ⟨c10_empty_entries.1 1 extOne [(5, [])] 5 (by simp) (by omega),
   c10_empty_entries.2 1 extOne [(0, [])]
     (by intro e he; simp at he; subst he; rfl)
     (by intro e he; simp at he; subst he; decide)⟩

theorem isPrefixOf_eq_take (n : List Nat) : ∀ l : List Nat,
    n.isPrefixOf l = true ↔ l.take n.length = n := by
  induction n with
  | nil => intro l; simp
  | cons a n ih =>
      intro l
      cases l with
      | nil => simp
      | cons b t =>
          constructor
          · intro h
            simp only [List.isPrefixOf, Bool.and_eq_true, beq_iff_eq] at h
            obtain ⟨h1, h2⟩ := h
            subst h1
            simp [List.take, (ih t).mp h2]
          · intro h
            simp only [List.length_cons, List.take_succ_cons, List.cons.injEq] at h
            obtain ⟨h1, h2⟩ := h
            subst h1
            simp only [List.isPrefixOf, Bool.and_eq_true, beq_iff_eq]
            exact ⟨trivial, (ih t).mpr h2⟩

theorem prefixAt_nil (n : List Nat) (p : Nat) (h : prefixAt [] n p) : n = [] := by
  simp only [prefixAt, List.drop_nil, List.take_nil] at h
  exact h.symm

theorem prefixAt_zero (h n : List Nat) : prefixAt h n 0 ↔ n.isPrefixOf h = true := by
  unfold prefixAt
  rw [List.drop_zero, isPrefixOf_eq_take]

theorem prefixAt_succ (x : Nat) (t n : List Nat) (p : Nat) :
    prefixAt (x :: t) n (p + 1) ↔ prefixAt t n p := by
  unfold prefixAt
  rw [List.drop_succ_cons]

theorem findAux_some (n : List Nat) : ∀ (h : List Nat) (p : Nat),
    findAux n h = some p → prefixAt h n p ∧ ∀ j < p, ¬ prefixAt h n j := by
  intro h
  induction h with
  | nil =>
      intro p hp
      simp only [findAux] at hp
      by_cases hn : n.isEmpty
      · rw [if_pos hn] at hp
        cases hp
        have hn2 : n = [] := List.isEmpty_iff.mp hn
        subst hn2
        exact ⟨rfl, by omega⟩
      · rw [if_neg hn] at hp; cases hp
  | cons x t ih =>
      intro p hp
      simp only [findAux] at hp
      by_cases hpre : n.isPrefixOf (x :: t) = true
      · rw [if_pos hpre] at hp
        cases hp
        exact ⟨(prefixAt_zero (x :: t) n).mpr hpre, by omega⟩
      · rw [if_neg hpre] at hp
        cases hq : findAux n t with
        | none => rw [hq] at hp; cases hp
        | some q =>
            rw [hq] at hp
            have hp2 : p = q + 1 := by simpa using hp.symm
            subst hp2
            obtain ⟨h1, h2⟩ := ih q hq
            refine ⟨(prefixAt_succ x t n q).mpr h1, ?_⟩
            intro j hj
            cases j with
            | zero =>
                intro hc
                exact hpre ((prefixAt_zero (x :: t) n).mp hc)
            | succ j1 =>
                intro hc
                exact h2 j1 (by omega) ((prefixAt_succ x t n j1).mp hc)

theorem findAux_eq_some_of (n : List Nat) : ∀ (h : List Nat) (p : Nat),
    prefixAt h n p → (∀ j < p, ¬ prefixAt h n j) → findAux n h = some p := by
  intro h
  induction h with
  | nil =>
      intro p h1 h2
      have hn : n = [] := prefixAt_nil n p h1
      subst hn
      have hp0 : p = 0 := by
        by_contra hne
        exact h2 0 (by omega) rfl
      subst hp0
      rfl
  | cons x t ih =>
      intro p h1 h2
      simp only [findAux]
      by_cases hpre : n.isPrefixOf (x :: t) = true
      · have hp0 : p = 0 := by
          by_contra hne
          exact h2 0 (by omega) ((prefixAt_zero (x :: t) n).mpr hpre)
        subst hp0
        rw [if_pos hpre]
      · rw [if_neg hpre]
        cases p with
        | zero => exact absurd ((prefixAt_zero (x :: t) n).mp h1) hpre
        | succ q =>
            have hq : findAux n t = some q := by
              refine ih q ((prefixAt_succ x t n q).mp h1) ?_
              intro j hj hc
              exact h2 (j + 1) (by omega) ((prefixAt_succ x t n j).mpr hc)
            rw [hq]
            rfl

theorem findBytes_isSome_of (n : List Nat) : ∀ (h : List Nat) (p : Nat),
    prefixAt h n p → (find_bytes h n).isSome := by
  intro h
  induction h with
  | nil =>
      intro p hp
      have hn : n = [] := prefixAt_nil n p hp
      subst hn
      rfl
  | cons x t ih =>
      intro p hp
      simp only [find_bytes, findAux]
      by_cases hpre : n.isPrefixOf (x :: t) = true
      · rw [if_pos hpre]; rfl
      · rw [if_neg hpre]
        cases p with
        | zero => exact absurd ((prefixAt_zero (x :: t) n).mp hp) hpre
        | succ q =>
            have := ih q ((prefixAt_succ x t n q).mp hp)
            simp only [find_bytes] at this
            cases hres : findAux n t with
            | none => rw [hres] at this; simp at this
            | some r => rfl

theorem prefixAt_congr (B B1 n : List Nat) (c j : Nat)
    (htake : B1.take c = B.take c) (hj : j + n.length ≤ c) :
    (prefixAt B1 n j ↔ prefixAt B n j) := by
  have key : ∀ X : List Nat,
      (X.drop j).take n.length = ((X.take c).drop j).take n.length := by
    intro X
    rw [List.drop_take, List.take_take]
    congr 1
    omega
  unfold prefixAt
  rw [key B1, key B, htake]

theorem splice_take_prefix (B ins : List Nat) (c : Nat) (hc : c ≤ B.length) :
    (B.take c ++ ins ++ B.drop c).take c = B.take c := by
  have hlen : (B.take c).length = c := by simp [hc]
  rw [List.append_assoc, List.take_append_of_le_length (by omega)]
  rw [List.take_take]
  simp

theorem find_bytes_stable (B n ins : List Nat) (p c : Nat)
    (hf : find_bytes B n = some p) (hpc : p + n.length ≤ c) (hcB : c ≤ B.length) :
    find_bytes (B.take c ++ ins ++ B.drop c) n = some p := by
  obtain ⟨h1, h2⟩ := findAux_some n B p hf
  have htake : (B.take c ++ ins ++ B.drop c).take c = B.take c :=
    splice_take_prefix B ins c hcB
  refine findAux_eq_some_of n _ p ?_ ?_
  · exact (prefixAt_congr B _ n c p htake hpc).mpr h1
  · intro j hj hc2
    exact h2 j hj ((prefixAt_congr B _ n c j htake (by omega)).mp hc2)

theorem fde_cons_cons (a b : Nat) (rest : List Nat) (idx : Nat) (depth : Int) :
    findDictEndAux (a :: b :: rest) idx depth =
      if a = 60 ∧ b = 60 then findDictEndAux rest (idx + 2) (depth + 1)
      else if a = 62 ∧ b = 62 then
        if depth - 1 = 0 then some idx else findDictEndAux rest (idx + 2) (depth - 1)
      else findDictEndAux (b :: rest) (idx + 1) depth := rfl

theorem fde_nil (idx : Nat) (depth : Int) : findDictEndAux [] idx depth = none := rfl

theorem fde_one (a : Nat) (idx : Nat) (depth : Int) :
    findDictEndAux [a] idx depth = none := rfl

theorem fde_close (L : List Nat) (idx : Nat) (depth : Int) :
    ∀ de : Nat, findDictEndAux L idx depth = some de →
      idx ≤ de ∧ ∃ rest2, L.drop (de - idx) = 62 :: 62 :: rest2 := by
  induction L, idx, depth using findDictEndAux.induct with
  | case1 a b rest idx depth hab ih =>
      intro de h
      rw [fde_cons_cons, if_pos hab] at h
      obtain ⟨hle, r2, hr2⟩ := ih de h
      obtain ⟨ha, hb⟩ := hab
      subst ha; subst hb
      refine ⟨by omega, r2, ?_⟩
      have e1 : de - idx = (de - (idx + 2)) + 2 := by omega
      rw [e1]
      simpa using hr2
  | case2 a b rest idx depth h1 hab hd =>
      intro de h
      rw [fde_cons_cons, if_neg h1, if_pos hab, if_pos hd] at h
      cases h
      obtain ⟨ha, hb⟩ := hab
      subst ha; subst hb
      exact ⟨Nat.le_refl _, rest, by simp⟩
  | case3 a b rest idx depth h1 hab hd ih =>
      intro de h
      rw [fde_cons_cons, if_neg h1, if_pos hab, if_neg hd] at h
      obtain ⟨hle, r2, hr2⟩ := ih de h
      obtain ⟨ha, hb⟩ := hab
      subst ha; subst hb
      refine ⟨by omega, r2, ?_⟩
      have e1 : de - idx = (de - (idx + 2)) + 2 := by omega
      rw [e1]
      simpa using hr2
  | case4 a b rest idx depth h1 h2 ih =>
      intro de h
      rw [fde_cons_cons, if_neg h1, if_neg h2] at h
      obtain ⟨hle, r2, hr2⟩ := ih de h
      refine ⟨by omega, r2, ?_⟩
      have e1 : de - idx = (de - (idx + 1)) + 1 := by omega
      rw [e1]
      simpa using hr2
  | case5 t x x1 hshape =>
      intro de h
      exfalso
      cases t with
      | nil => rw [fde_nil] at h; cases h
      | cons a t2 =>
          cases t2 with
          | nil => rw [fde_one] at h; cases h
          | cons b r => exact hshape a b r rfl

theorem fde_passthrough : ∀ (ins : List Nat), (∀ c ∈ ins, c ≠ 60 ∧ c ≠ 62) →
    ∀ (M : List Nat), M ≠ [] → ∀ (idx : Nat) (depth : Int),
      findDictEndAux (ins ++ M) idx depth = findDictEndAux M (idx + ins.length) depth := by
  intro ins
  induction ins with
  | nil => intro hins M hM idx depth; simp
  | cons a ins2 ih =>
      intro hins M hM idx depth
      have ha := hins a (List.mem_cons_self a ins2)
      cases hsplit : ins2 ++ M with
      | nil =>
          exact absurd (List.append_eq_nil.mp hsplit).2 hM
      | cons b rest =>
          have e1 : a :: ins2 ++ M = a :: b :: rest := by
            rw [List.cons_append, hsplit]
          rw [e1, fde_cons_cons, if_neg (fun hc => ha.1 hc.1),
            if_neg (fun hc => ha.2 hc.1), ← hsplit,
            ih (fun c hc => hins c (List.mem_cons_of_mem a hc)) M hM (idx + 1) depth]
          congr 1
          simp only [List.length_cons]
          omega

theorem fde_sim (ins : List Nat) (hins : ∀ c ∈ ins, c ≠ 60 ∧ c ≠ 62) :
    ∀ (L : List Nat) (idx : Nat) (depth : Int), ∀ de : Nat,
      findDictEndAux L idx depth = some de →
      findDictEndAux (L.take (de - idx) ++ ins ++ L.drop (de - idx)) idx depth
        = some (de + ins.length) := by
  intro L idx depth
  induction L, idx, depth using findDictEndAux.induct with
  | case1 a b rest idx depth hab ih =>
      intro de h
      rw [fde_cons_cons, if_pos hab] at h
      have hle := (fde_close rest (idx + 2) (depth + 1) de h).1
      obtain ⟨ha, hb⟩ := hab
      subst ha; subst hb
      have e1 : de - idx = (de - (idx + 2)) + 2 := by omega
      rw [e1]
      simp only [List.take_succ_cons, List.drop_succ_cons, List.cons_append]
      rw [fde_cons_cons, if_pos ⟨rfl, rfl⟩]
      exact ih de h
  | case2 a b rest idx depth h1 hab hd =>
      intro de h
      rw [fde_cons_cons, if_neg h1, if_pos hab, if_pos hd] at h
      cases h
      obtain ⟨ha, hb⟩ := hab
      subst ha; subst hb
      simp only [Nat.sub_self, List.take_zero, List.drop_zero, List.nil_append]
      rw [fde_passthrough ins hins (62 :: 62 :: rest) (by simp) idx depth]
      rw [fde_cons_cons, if_neg h1, if_pos ⟨rfl, rfl⟩, if_pos hd]
  | case3 a b rest idx depth h1 hab hd ih =>
      intro de h
      rw [fde_cons_cons, if_neg h1, if_pos hab, if_neg hd] at h
      have hle := (fde_close rest (idx + 2) (depth - 1) de h).1
      obtain ⟨ha, hb⟩ := hab
      subst ha; subst hb
      have e1 : de - idx = (de - (idx + 2)) + 2 := by omega
      rw [e1]
      simp only [List.take_succ_cons, List.drop_succ_cons, List.cons_append]
      rw [fde_cons_cons, if_neg h1, if_pos ⟨rfl, rfl⟩, if_neg hd]
      exact ih de h
  | case4 a b rest idx depth h1 h2 ih =>
      intro de h
      rw [fde_cons_cons, if_neg h1, if_neg h2] at h
      obtain ⟨hle, r2, hr2⟩ := fde_close (b :: rest) (idx + 1) depth de h
      have e1 : de - idx = (de - (idx + 1)) + 1 := by omega
      rw [e1]
      simp only [List.take_succ_cons, List.drop_succ_cons, List.cons_append]
      have hgoal := ih de h
      by_cases hk : de - (idx + 1) = 0
      · rw [hk] at hgoal hr2 ⊢
        simp only [List.take_zero, List.drop_zero, List.nil_append] at hgoal ⊢
        simp only [List.drop_zero] at hr2
        cases ins with
        | nil =>
            simp only [List.nil_append] at hgoal ⊢
            obtain ⟨hb62, hrest⟩ : b = 62 ∧ rest = 62 :: r2 := by
              cases hr2; exact ⟨rfl, rfl⟩
            subst hb62
            subst hrest
            rw [fde_cons_cons, if_neg (fun hc => by omega),
              if_neg (fun hc => h2 ⟨hc.1, rfl⟩)]
            exact hgoal
        | cons c ins3 =>
            have hc := hins c (List.mem_cons_self c ins3)
            simp only [List.cons_append] at hgoal ⊢
            rw [fde_cons_cons, if_neg (fun hcc => hc.1 hcc.2),
              if_neg (fun hcc => hc.2 hcc.2)]
            exact hgoal
      · obtain ⟨k1, hk1⟩ : ∃ k1, de - (idx + 1) = k1 + 1 := ⟨de - (idx + 1) - 1, by omega⟩
        rw [hk1] at hgoal ⊢
        simp only [List.take_succ_cons, List.drop_succ_cons, List.cons_append] at hgoal ⊢
        rw [fde_cons_cons, if_neg h1, if_neg h2]
        exact hgoal
  | case5 t x x1 hshape =>
      intro de h
      exfalso
      cases t with
      | nil => rw [fde_nil] at h; cases h
      | cons a t2 =>
          cases t2 with
          | nil => rw [fde_one] at h; cases h
          | cons b r => exact hshape a b r rfl

theorem take_two_eq (l : List Nat) (a b : Nat) (h : l.take 2 = [a, b]) :
    ∃ t, l = a :: b :: t := by
  cases l with
  | nil => cases h
  | cons x t1 =>
      cases t1 with
      | nil => cases h
      | cons y t2 =>
          simp only [List.take_succ_cons, List.take_zero, List.cons.injEq] at h
          obtain ⟨h1, h2, _⟩ := h
          subst h1
          cases h2
          exact ⟨t2, rfl⟩

theorem splice_drop (B ins : List Nat) (c s : Nat) (hs : s ≤ c) (hc : c ≤ B.length) :
    (B.take c ++ ins ++ B.drop c).drop s
      = (B.drop s).take (c - s) ++ ins ++ (B.drop s).drop (c - s) := by
  have hlen : (B.take c).length = c := by simp [hc]
  rw [List.append_assoc, List.drop_append_of_le_length (by omega)]
  rw [List.drop_take]
  have e1 : (B.drop s).drop (c - s) = B.drop c := by
    rw [List.drop_drop]
    congr 1
    omega
  rw [e1, List.append_assoc]

theorem digitsAux_range : ∀ (fuel n : Nat), ∀ d ∈ digitsAux fuel n, 48 ≤ d ∧ d ≤ 57 := by
  intro fuel
  induction fuel with
  | zero => intro n d hd; cases hd
  | succ f ih =>
      intro n d hd
      simp only [digitsAux] at hd
      by_cases hn : n < 10
      · rw [if_pos hn] at hd
        simp only [List.mem_singleton] at hd
        subst hd
        omega
      · rw [if_neg hn] at hd
        rcases List.mem_append.mp hd with h1 | h2
        · exact ih (n / 10) d h1
        · simp only [List.mem_singleton] at h2
          subst h2
          have : n % 10 < 10 := Nat.mod_lt n (by omega)
          omega

theorem annotsInsertBytes_bracket_free (ar : Nat) :
    ∀ c ∈ annotsInsertBytes ar, c ≠ 60 ∧ c ≠ 62 := by
  intro c hc
  have hsplit : c = 10 ∨ c = 32 ∨ c ∈ strBytes "/Annots " ∨ c ∈ natToDigits ar
      ∨ c ∈ strBytes " 0 R" := by
    simp only [annotsInsertBytes, List.mem_append, List.mem_cons,
      List.not_mem_nil, or_false] at hc
    tauto
  rcases hsplit with h | h | h | h | h
  · subst h; omega
  · subst h; omega
  · have hfix : ∀ x ∈ strBytes "/Annots ", x ≠ 60 ∧ x ≠ 62 := by decide
    exact hfix c h
  · have := digitsAux_range (ar + 1) ar c h
    omega
  · have hfix : ∀ x ∈ strBytes " 0 R", x ≠ 60 ∧ x ≠ 62 := by decide
    exact hfix c h

theorem inject_eq_of_present (B : List Nat) (pr ar op rel de : Nat)
    (hm : find_bytes B (pageObjMarker pr) = some op)
    (h2 : find_bytes (B.drop (op + (pageObjMarker pr).length)) (strBytes "<<")
        = some rel)
    (h3 : find_matching_dict_end B (op + (pageObjMarker pr).length + rel) = some de)
    (h4 : (find_bytes ((B.drop (op + (pageObjMarker pr).length + rel)).take
        (de - (op + (pageObjMarker pr).length + rel))) (strBytes "/Annots")).isSome) :
    inject_annots_into_page B pr ar = (B, true) := by
  unfold inject_annots_into_page
  rw [hm]
  simp only [h2, h3, h4, if_pos]

theorem inject_none_marker (B : List Nat) (pr ar : Nat)
    (hm : find_bytes B (pageObjMarker pr) = none) :
    inject_annots_into_page B pr ar = (B, false) := by
  unfold inject_annots_into_page
  rw [hm]

theorem inject_none_open (B : List Nat) (pr ar op : Nat)
    (hm : find_bytes B (pageObjMarker pr) = some op)
    (h2 : find_bytes (B.drop (op + (pageObjMarker pr).length)) (strBytes "<<") = none) :
    inject_annots_into_page B pr ar = (B, false) := by
  unfold inject_annots_into_page
  rw [hm]
  simp only [h2]

theorem inject_none_close (B : List Nat) (pr ar op rel : Nat)
    (hm : find_bytes B (pageObjMarker pr) = some op)
    (h2 : find_bytes (B.drop (op + (pageObjMarker pr).length)) (strBytes "<<")
        = some rel)
    (h3 : find_matching_dict_end B (op + (pageObjMarker pr).length + rel) = none) :
    inject_annots_into_page B pr ar = (B, false) := by
  unfold inject_annots_into_page
  rw [hm]
  simp only [h2, h3]

theorem inject_eq_of_absent (B : List Nat) (pr ar op rel de : Nat)
    (hm : find_bytes B (pageObjMarker pr) = some op)
    (h2 : find_bytes (B.drop (op + (pageObjMarker pr).length)) (strBytes "<<")
        = some rel)
    (h3 : find_matching_dict_end B (op + (pageObjMarker pr).length + rel) = some de)
    (h4 : ¬ (find_bytes ((B.drop (op + (pageObjMarker pr).length + rel)).take
        (de - (op + (pageObjMarker pr).length + rel))) (strBytes "/Annots")).isSome) :
    inject_annots_into_page B pr ar
      = (B.take de ++ annotsInsertBytes ar ++ B.drop de, true) := by
  unfold inject_annots_into_page
  rw [hm]
  simp only [h2, h3]
  rw [if_neg h4]

theorem inject_insert_then_present (B : List Nat) (pr ar op rel de : Nat)
    (hm : find_bytes B (pageObjMarker pr) = some op)
    (h2 : find_bytes (B.drop (op + (pageObjMarker pr).length)) (strBytes "<<")
        = some rel)
    (h3 : find_matching_dict_end B (op + (pageObjMarker pr).length + rel) = some de) :
    inject_annots_into_page (B.take de ++ annotsInsertBytes ar ++ B.drop de) pr ar
      = (B.take de ++ annotsInsertBytes ar ++ B.drop de, true) := by
  have hins := annotsInsertBytes_bracket_free ar
  unfold find_matching_dict_end at h3
  have hpre2 := (findAux_some (strBytes "<<")
    (B.drop (op + (pageObjMarker pr).length)) rel h2).1
  unfold prefixAt at hpre2
  rw [List.drop_drop] at hpre2
  have hpre2b : (B.drop (op + (pageObjMarker pr).length + rel)).take 2
      = [60, 60] := hpre2
  obtain ⟨r2, hr2⟩ := take_two_eq (B.drop (op + (pageObjMarker pr).length + rel))
    60 60 hpre2b
  have h3b := h3
  rw [hr2, fde_cons_cons, if_pos ⟨rfl, rfl⟩] at h3b
  have hds2 : op + (pageObjMarker pr).length + rel + 2 ≤ de :=
    (fde_close r2 (op + (pageObjMarker pr).length + rel + 2) (0 + 1) de h3b).1
  obtain ⟨hdsde, r3, hr3⟩ := fde_close (B.drop (op + (pageObjMarker pr).length + rel))
    (op + (pageObjMarker pr).length + rel) 0 de h3
  rw [List.drop_drop] at hr3
  have hidx2 : op + (pageObjMarker pr).length + rel
      + (de - (op + (pageObjMarker pr).length + rel)) = de := by omega
  rw [hidx2] at hr3
  have hdeB : de + 2 ≤ B.length := by
    have hlen3 : (B.drop de).length = B.length - de := List.length_drop ..
    rw [hr3] at hlen3
    simp only [List.length_cons] at hlen3
    omega
  have g1 : find_bytes (B.take de ++ annotsInsertBytes ar ++ B.drop de)
      (pageObjMarker pr) = some op :=
    find_bytes_stable B (pageObjMarker pr) (annotsInsertBytes ar) op de hm
      (by omega) (by omega)
  have g2 : find_bytes ((B.take de ++ annotsInsertBytes ar ++ B.drop de).drop
      (op + (pageObjMarker pr).length)) (strBytes "<<") = some rel := by
    rw [splice_drop B (annotsInsertBytes ar) de (op + (pageObjMarker pr).length)
      (by omega) (by omega)]
    apply find_bytes_stable (B.drop (op + (pageObjMarker pr).length))
      (strBytes "<<") (annotsInsertBytes ar) rel
      (de - (op + (pageObjMarker pr).length)) h2
    · have hl2 : (strBytes "<<").length = 2 := rfl
      omega
    · rw [List.length_drop]
      omega
  have g3 : find_matching_dict_end (B.take de ++ annotsInsertBytes ar ++ B.drop de)
      (op + (pageObjMarker pr).length + rel)
      = some (de + (annotsInsertBytes ar).length) := by
    unfold find_matching_dict_end
    rw [splice_drop B (annotsInsertBytes ar) de
      (op + (pageObjMarker pr).length + rel) hdsde (by omega)]
    exact fde_sim (annotsInsertBytes ar) hins
      (B.drop (op + (pageObjMarker pr).length + rel))
      (op + (pageObjMarker pr).length + rel) 0 de h3
  have hTlen : ((B.drop (op + (pageObjMarker pr).length + rel)).take
      (de - (op + (pageObjMarker pr).length + rel))).length
      = de - (op + (pageObjMarker pr).length + rel) := by
    rw [List.length_take, List.length_drop]
    omega
  have hspan : ((B.take de ++ annotsInsertBytes ar ++ B.drop de).drop
        (op + (pageObjMarker pr).length + rel)).take
        (de + (annotsInsertBytes ar).length - (op + (pageObjMarker pr).length + rel))
      = (B.drop (op + (pageObjMarker pr).length + rel)).take
          (de - (op + (pageObjMarker pr).length + rel)) ++ annotsInsertBytes ar := by
    rw [splice_drop B (annotsInsertBytes ar) de
      (op + (pageObjMarker pr).length + rel) hdsde (by omega)]
    have e : de + (annotsInsertBytes ar).length - (op + (pageObjMarker pr).length + rel)
        = ((B.drop (op + (pageObjMarker pr).length + rel)).take
            (de - (op + (pageObjMarker pr).length + rel))).length
          + (annotsInsertBytes ar).length := by
      rw [hTlen]
      omega
    rw [e, ← List.length_append,
      List.take_append_of_le_length (Nat.le_refl _), List.take_length]
  have hdrop3 : (annotsInsertBytes ar).drop 3
      = (strBytes "/Annots " ++ natToDigits ar ++ strBytes " 0 R") ++ [10] := rfl
  have hsplit8 : strBytes "/Annots " = strBytes "/Annots" ++ [32] := by decide
  have hocc : prefixAt ((B.drop (op + (pageObjMarker pr).length + rel)).take
        (de - (op + (pageObjMarker pr).length + rel)) ++ annotsInsertBytes ar)
      (strBytes "/Annots")
      (((B.drop (op + (pageObjMarker pr).length + rel)).take
        (de - (op + (pageObjMarker pr).length + rel))).length + 3) := by
    unfold prefixAt
    rw [List.drop_append, hdrop3, hsplit8]
    have e2 : (strBytes "/Annots" ++ [32]) ++ natToDigits ar ++ strBytes " 0 R" ++ [10]
        = strBytes "/Annots"
          ++ ([32] ++ (natToDigits ar ++ (strBytes " 0 R" ++ [10]))) := by
      simp [List.append_assoc]
    rw [e2, List.take_append_of_le_length (Nat.le_refl _), List.take_length]
  have g4 : (find_bytes (((B.take de ++ annotsInsertBytes ar ++ B.drop de).drop
        (op + (pageObjMarker pr).length + rel)).take
        (de + (annotsInsertBytes ar).length
          - (op + (pageObjMarker pr).length + rel)))
      (strBytes "/Annots")).isSome := by
    rw [hspan]
    exact findBytes_isSome_of (strBytes "/Annots") _ _ hocc
  exact inject_eq_of_present (B.take de ++ annotsInsertBytes ar ++ B.drop de)
    pr ar op rel (de + (annotsInsertBytes ar).length) g1 g2 g3 g4

/-- C9: the splicer is idempotent.  First, whenever the page object
marker, the dictionary opener and its depth-matched closing delimiter are
found and the enclosed span already contains the literal /Annots, the
splicer returns the buffer unchanged and reports success.  Second, for
every buffer and every page and array reference, running
inject_annots_into_page on its own output changes nothing: a failed or
already-annotated run leaves the bytes untouched, and after an insertion
the second run finds the same marker and opener, matches the closing
delimiter shifted by the inserted length, sees /Annots inside the span
and leaves the buffer alone. -/
theorem c9_splicer_idempotent :
    (∀ (B : List Nat) (pr ar op rel de : Nat),
        find_bytes B (pageObjMarker pr) = some op →
        find_bytes (B.drop (op + (pageObjMarker pr).length)) (strBytes "<<")
          = some rel →
        find_matching_dict_end B (op + (pageObjMarker pr).length + rel) = some de →
        (find_bytes ((B.drop (op + (pageObjMarker pr).length + rel)).take
            (de - (op + (pageObjMarker pr).length + rel)))
          (strBytes "/Annots")).isSome →
        inject_annots_into_page B pr ar = (B, true))
    ∧ (∀ (B : List Nat) (pr ar : Nat),
        inject_annots_into_page (inject_annots_into_page B pr ar).1 pr ar
          = inject_annots_into_page B pr ar) := by
  constructor
  · intro B pr ar op rel de hm h2 h3 h4
    exact inject_eq_of_present B pr ar op rel de hm h2 h3 h4
  · intro B pr ar
    cases hm : find_bytes B (pageObjMarker pr) with
    | none =>
        have hres := inject_none_marker B pr ar hm
        rw [hres]
        exact hres
    | some op =>
        cases h2 : find_bytes (B.drop (op + (pageObjMarker pr).length))
            (strBytes "<<") with
        | none =>
            have hres := inject_none_open B pr ar op hm h2
            rw [hres]
            exact hres
        | some rel =>
            cases h3 : find_matching_dict_end B
                (op + (pageObjMarker pr).length + rel) with
            | none =>
                have hres := inject_none_close B pr ar op rel hm h2 h3
                rw [hres]
                exact hres
            | some de =>
                by_cases h4 : (find_bytes ((B.drop
                    (op + (pageObjMarker pr).length + rel)).take
                    (de - (op + (pageObjMarker pr).length + rel)))
                  (strBytes "/Annots")).isSome
                · have hres := inject_eq_of_present B pr ar op rel de hm h2 h3 h4
                  rw [hres]
                  exact hres
                · have hres := inject_eq_of_absent B pr ar op rel de hm h2 h3 h4
                  rw [hres]
                  exact inject_insert_then_present B pr ar op rel de hm h2 h3

/-- Witness for C9 at a concrete page object: a buffer whose page 3
dictionary already carries /Annots is returned unchanged with success,
and a buffer without it reaches the same bytes whether the splicer runs
once or twice. -/
theorem c9_splicer_idempotent_witness :
    inject_annots_into_page
        (strBytes "3 0 obj\n<< /Type /Page /Annots 9 0 R >>\nendobj") 3 9
      = (strBytes "3 0 obj\n<< /Type /Page /Annots 9 0 R >>\nendobj", true)
    ∧ inject_annots_into_page
        (inject_annots_into_page (strBytes "3 0 obj\n<< /T /Page >>\nendobj") 3 9).1 3 9
      = inject_annots_into_page (strBytes "3 0 obj\n<< /T /Page >>\nendobj") 3 9 :=
  ⟨c9_splicer_idempotent.1
      (strBytes "3 0 obj\n<< /Type /Page /Annots 9 0 R >>\nendobj") 3 9 0 1 37
      (by decide) (by decide) (by decide) (by decide),
   c9_splicer_idempotent.2 (strBytes "3 0 obj\n<< /T /Page >>\nendobj") 3 9⟩

theorem btreeInsert_mem (acc : List (Nat × Nat)) (k v : Nat) :
    ∀ e ∈ btreeInsert acc k v, e = (k, v) ∨ e ∈ acc := by
  induction acc with
  | nil => intro e he; simp only [btreeInsert, List.mem_singleton] at he; exact Or.inl he
  | cons p rest ih =>
      obtain ⟨k1, v1⟩ := p
      intro e he
      simp only [btreeInsert] at he
      by_cases h1 : k < k1
      · rw [if_pos h1] at he
        rcases List.mem_cons.mp he with h | h
        · exact Or.inl h
        · exact Or.inr h
      · rw [if_neg h1] at he
        by_cases h2 : k = k1
        · rw [if_pos h2] at he
          rcases List.mem_cons.mp he with h | h
          · exact Or.inl h
          · exact Or.inr (List.mem_cons_of_mem _ h)
        · rw [if_neg h2] at he
          rcases List.mem_cons.mp he with h | h
          · exact Or.inr (by rw [h]; exact List.mem_cons_self ..)
          · rcases ih e h with h3 | h3
            · exact Or.inl h3
            · exact Or.inr (List.mem_cons_of_mem _ h3)

theorem btreeInsert_pairwise (k v : Nat) :
    ∀ acc : List (Nat × Nat), List.Pairwise (fun x y => x.1 < y.1) acc →
    List.Pairwise (fun x y => x.1 < y.1) (btreeInsert acc k v) := by
  intro acc
  induction acc with
  | nil => intro _; simp [btreeInsert]
  | cons p rest ih =>
      obtain ⟨k1, v1⟩ := p
      intro hpw
      obtain ⟨hhead, hrest⟩ := List.pairwise_cons.mp hpw
      simp only [btreeInsert]
      by_cases h1 : k < k1
      · rw [if_pos h1]
        refine List.pairwise_cons.mpr ⟨?_, hpw⟩
        intro x hx
        rcases List.mem_cons.mp hx with h | h
        · rw [h]; exact h1
        · exact Nat.lt_trans h1 (hhead x h)
      · rw [if_neg h1]
        by_cases h2 : k = k1
        · rw [if_pos h2]
          refine List.pairwise_cons.mpr ⟨?_, hrest⟩
          intro x hx
          rw [h2]
          exact hhead x hx
        · rw [if_neg h2]
          refine List.pairwise_cons.mpr ⟨?_, ih hrest⟩
          intro x hx
          rcases btreeInsert_mem rest k v x hx with h | h
          · rw [h]; omega
          · exact hhead x h

theorem insertHeader_mem (acc : List (Nat × Nat)) (ls : Nat) (cur : List Nat) :
    ∀ e ∈ insertHeader acc ls cur,
      e ∈ acc ∨ (parse_obj_header cur = some e.1 ∧ e.2 = ls) := by
  intro e he
  unfold insertHeader at he
  cases hp : parse_obj_header cur with
  | none => rw [hp] at he; exact Or.inl he
  | some id =>
      rw [hp] at he
      rcases btreeInsert_mem acc id ls e he with h | h
      · rw [h]; exact Or.inr ⟨rfl, rfl⟩
      · exact Or.inl h

theorem insertHeader_pairwise (acc : List (Nat × Nat)) (ls : Nat) (cur : List Nat)
    (h : List.Pairwise (fun x y => x.1 < y.1) acc) :
    List.Pairwise (fun x y => x.1 < y.1) (insertHeader acc ls cur) := by
  unfold insertHeader
  cases parse_obj_header cur with
  | none => exact h
  | some id => exact btreeInsert_pairwise id ls acc h

theorem takeWhile_append_stop (p : Nat → Bool) (c : Nat) (hc : p c = false) :
    ∀ (A E : List Nat), (A ++ c :: E).takeWhile p = A.takeWhile p := by
  intro A E
  induction A with
  | nil => simp [List.takeWhile, hc]
  | cons a A ih =>
      simp only [List.cons_append, List.takeWhile, List.append_eq]
      cases p a with
      | false => rfl
      | true => rw [ih]

theorem takeWhile_all (p : Nat → Bool) :
    ∀ A : List Nat, (∀ c ∈ A, p c = true) → A.takeWhile p = A := by
  intro A
  induction A with
  | nil => intro _; rfl
  | cons a A ih =>
      intro h
      simp only [List.takeWhile, h a (List.mem_cons_self ..)]
      rw [ih (fun c hc => h c (List.mem_cons_of_mem _ hc))]

theorem lineAt_of_drop (B : List Nat) (ls : Nat) (cur rest2 : List Nat)
    (hdrop : B.drop ls = cur ++ rest2)
    (hcur : ∀ c ∈ cur, nonTerm c = true)
    (hrest : rest2 = [] ∨ ∃ c rest3, rest2 = c :: rest3 ∧ nonTerm c = false) :
    lineAt B ls = cur := by
  unfold lineAt
  rw [hdrop]
  rcases hrest with h | ⟨c, rest3, hr, hc⟩
  · subst h
    rw [List.append_nil]
    exact takeWhile_all nonTerm cur hcur
  · subst hr
    rw [takeWhile_append_stop nonTerm c hc]
    exact takeWhile_all nonTerm cur hcur

theorem insertHeader_sound (B : List Nat) (acc : List (Nat × Nat)) (ls : Nat)
    (cur : List Nat)
    (hline : lineAt B ls = cur) (hstart : lineStartB B ls = true)
    (hacc : ∀ e ∈ acc,
      lineStartB B e.2 = true ∧ parse_obj_header (lineAt B e.2) = some e.1) :
    ∀ e ∈ insertHeader acc ls cur,
      lineStartB B e.2 = true ∧ parse_obj_header (lineAt B e.2) = some e.1 := by
  intro e he
  rcases insertHeader_mem acc ls cur e he with h | ⟨hp, hls⟩
  · exact hacc e h
  · rw [hls]
    exact ⟨hstart, by rw [hline]; exact hp⟩

theorem drop_shift (B : List Nat) (ls k : Nat) :
    B.drop (ls + k) = (B.drop ls).drop k := by
  rw [List.drop_drop]

theorem lineStartB_of_term (B : List Nat) (p b : Nat)
    (hb : B[p]? = some b) (hterm : b = 13 ∨ b = 10) :
    lineStartB B (p + 1) = true := by
  simp only [lineStartB, Nat.add_sub_cancel, hb]
  rcases hterm with h | h <;> subst h <;> rfl

theorem collectAux_sound (B : List Nat) :
    ∀ (bs : List Nat) (ls : Nat) (cur : List Nat) (acc : List (Nat × Nat)),
    B.drop ls = cur ++ bs →
    (∀ c ∈ cur, nonTerm c = true) →
    lineStartB B ls = true →
    (∀ e ∈ acc,
      lineStartB B e.2 = true ∧ parse_obj_header (lineAt B e.2) = some e.1) →
    ∀ e ∈ collectAux bs ls cur acc,
      lineStartB B e.2 = true ∧ parse_obj_header (lineAt B e.2) = some e.1 := by
  intro bs ls cur acc
  induction bs, ls, cur, acc using collectAux.induct with
  | case1 ls cur acc =>
      intro hdrop hcur hstart hacc
      exact insertHeader_sound B acc ls cur
        (lineAt_of_drop B ls cur [] (by simpa using hdrop) hcur (Or.inl rfl))
        hstart hacc
  | case2 b ls cur acc hb ih =>
      intro hdrop hcur hstart hacc
      have hbyte : B[ls + cur.length]? = some b := by
        rw [← List.getElem?_drop, hdrop,
          List.getElem?_append_right (Nat.le_refl _)]
        simp
      have hterm : nonTerm b = false := by
        rcases hb with h | h <;> subst h <;> rfl
      have hacc2 := insertHeader_sound B acc ls cur
        (lineAt_of_drop B ls cur [b] hdrop hcur (Or.inr ⟨b, [], rfl, hterm⟩))
        hstart hacc
      have hdrop2 : B.drop (ls + cur.length + 1) = [] ++ ([] : List Nat) := by
        have e1 : ls + cur.length + 1 = ls + (cur.length + 1) := by omega
        rw [e1, drop_shift, hdrop]
        rw [List.drop_append]
        rfl
      have hstart2 : lineStartB B (ls + cur.length + 1) = true :=
        lineStartB_of_term B (ls + cur.length) b hbyte
          (by rcases hb with h | h <;> subst h <;> simp)
      simp only [collectAux, if_pos hb]
      exact ih hdrop2 (by intro c hc; cases hc) hstart2 hacc2
  | case3 b ls cur acc hb ih =>
      intro hdrop hcur hstart hacc
      have hnt : nonTerm b = true := by
        simp only [nonTerm, Bool.and_eq_true, bne_iff_ne]
        omega
      simp only [collectAux, if_neg hb]
      refine ih ?_ ?_ hstart hacc
      · rw [hdrop]
        simp
      · intro c hc
        rcases List.mem_append.mp hc with h | h
        · exact hcur c h
        · simp only [List.mem_singleton] at h
          subst h
          exact hnt
  | case4 b b2 bs ls cur acc hb ih =>
      intro hdrop hcur hstart hacc
      obtain ⟨hb13, hb10⟩ := hb
      subst hb13
      subst hb10
      have hacc2 := insertHeader_sound B acc ls cur
        (lineAt_of_drop B ls cur (13 :: 10 :: bs) hdrop hcur
          (Or.inr ⟨13, 10 :: bs, rfl, rfl⟩))
        hstart hacc
      have hbyte : B[ls + cur.length + 1]? = some 10 := by
        have e1 : ls + cur.length + 1 = ls + (cur.length + 1) := by omega
        rw [e1, ← List.getElem?_drop, hdrop,
          List.getElem?_append_right (by omega)]
        have e2 : cur.length + 1 - cur.length = 1 := by omega
        rw [e2]
        simp
      have hdrop2 : B.drop (ls + cur.length + 2) = [] ++ bs := by
        have e1 : ls + cur.length + 2 = ls + (cur.length + 2) := by omega
        rw [e1, drop_shift, hdrop, List.drop_append]
        rfl
      have hstart2 : lineStartB B (ls + cur.length + 2) = true :=
        lineStartB_of_term B (ls + cur.length + 1) 10 hbyte (Or.inr rfl)
      simp only [collectAux, if_pos (And.intro rfl rfl)]
      exact ih hdrop2 (by intro c hc; cases hc) hstart2 hacc2
  | case5 b b2 bs ls cur acc hb1 hb ih =>
      intro hdrop hcur hstart hacc
      have hbyte : B[ls + cur.length]? = some b := by
        rw [← List.getElem?_drop, hdrop,
          List.getElem?_append_right (Nat.le_refl _)]
        simp
      have hterm : nonTerm b = false := by
        rcases hb with h | h <;> subst h <;> rfl
      have hacc2 := insertHeader_sound B acc ls cur
        (lineAt_of_drop B ls cur (b :: b2 :: bs) hdrop hcur
          (Or.inr ⟨b, b2 :: bs, rfl, hterm⟩))
        hstart hacc
      have hdrop2 : B.drop (ls + cur.length + 1) = [] ++ (b2 :: bs) := by
        have e1 : ls + cur.length + 1 = ls + (cur.length + 1) := by omega
        rw [e1, drop_shift, hdrop, List.drop_append]
        rfl
      have hstart2 : lineStartB B (ls + cur.length + 1) = true :=
        lineStartB_of_term B (ls + cur.length) b hbyte
          (by rcases hb with h | h <;> subst h <;> simp)
      simp only [collectAux, if_neg hb1, if_pos hb]
      exact ih hdrop2 (by intro c hc; cases hc) hstart2 hacc2
  | case6 b b2 bs ls cur acc hb1 hb ih =>
      intro hdrop hcur hstart hacc
      have hnt : nonTerm b = true := by
        simp only [nonTerm, Bool.and_eq_true, bne_iff_ne]
        omega
      simp only [collectAux, if_neg hb1, if_neg hb]
      refine ih ?_ ?_ hstart hacc
      · rw [hdrop]
        simp
      · intro c hc
        rcases List.mem_append.mp hc with h | h
        · exact hcur c h
        · simp only [List.mem_singleton] at h
          subst h
          exact hnt

theorem collect_sound (B : List Nat) :
    ∀ e ∈ collect_object_offsets B,
      lineStartB B e.2 = true ∧ parse_obj_header (lineAt B e.2) = some e.1 := by
  unfold collect_object_offsets
  exact collectAux_sound B B 0 [] [] (by simp) (by intro c hc; cases hc) rfl
    (by intro e he; cases he)

theorem collectAux_pairwise :
    ∀ (bs : List Nat) (ls : Nat) (cur : List Nat) (acc : List (Nat × Nat)),
    List.Pairwise (fun x y => x.1 < y.1) acc →
    List.Pairwise (fun x y => x.1 < y.1) (collectAux bs ls cur acc) := by
  intro bs ls cur acc
  induction bs, ls, cur, acc using collectAux.induct with
  | case1 ls cur acc =>
      intro h
      exact insertHeader_pairwise acc ls cur h
  | case2 b ls cur acc hb ih =>
      intro h
      simp only [collectAux, if_pos hb]
      exact ih (insertHeader_pairwise acc ls cur h)
  | case3 b ls cur acc hb ih =>
      intro h
      simp only [collectAux, if_neg hb]
      exact ih h
  | case4 b b2 bs ls cur acc hb ih =>
      intro h
      obtain ⟨h13, h10⟩ := hb
      subst h13
      subst h10
      simp only [collectAux, if_pos (And.intro rfl rfl)]
      exact ih (insertHeader_pairwise acc ls cur h)
  | case5 b b2 bs ls cur acc hb1 hb ih =>
      intro h
      simp only [collectAux, if_neg hb1, if_pos hb]
      exact ih (insertHeader_pairwise acc ls cur h)
  | case6 b b2 bs ls cur acc hb1 hb ih =>
      intro h
      simp only [collectAux, if_neg hb1, if_neg hb]
      exact ih h

theorem collect_pairwise (B : List Nat) :
    List.Pairwise (fun x y => x.1 < y.1) (collect_object_offsets B) := by
  unfold collect_object_offsets
  exact collectAux_pairwise B 0 [] [] List.Pairwise.nil

theorem xrefRows_get (L : Nat) :
    ∀ (offsets : List (Nat × Nat)) (written : Nat),
    List.Pairwise (fun x y => x.1 < y.1) offsets →
    (∀ e ∈ offsets, written ≤ e.1) →
    ∀ id off, (id, off) ∈ offsets →
      (xrefRows L offsets written)[id - written]? = some (inUseRow off) := by
  intro offsets
  induction offsets with
  | nil => intro written _ _ id off h; cases h
  | cons e rest ih =>
      obtain ⟨oid, ooff⟩ := e
      intro written hpw hge id off hmem
      have hwo : written ≤ oid := hge (oid, ooff) (List.mem_cons_self ..)
      have hheads := (List.pairwise_cons.mp hpw).1
      have hF : ((List.range' written (oid - written)).map
          (freeRow L oid ((oid, ooff) :: rest))).length = oid - written := by
        rw [List.length_map, List.length_range']
      simp only [xrefRows]
      rcases List.mem_cons.mp hmem with heq | hrest
      · cases heq
        rw [List.getElem?_append_right (by omega)]
        rw [hF, Nat.sub_self]
        simp
      · have hlt : oid < id := hheads (id, off) hrest
        rw [List.getElem?_append_right (by omega)]
        rw [hF]
        have e1 : id - written - (oid - written) = id - oid := by omega
        rw [e1]
        obtain ⟨k, hk⟩ : ∃ k, id - oid = k + 1 := ⟨id - oid - 1, by omega⟩
        rw [hk, List.getElem?_cons_succ]
        have e2 : written + (oid - written) + 1 = oid + 1 := by omega
        rw [e2]
        have hres := ih (oid + 1) (List.pairwise_cons.mp hpw).2
          (fun e2 he2 => hheads e2 he2) id off hrest
        have e3 : k = id - (oid + 1) := by omega
        rw [e3]
        exact hres

theorem lineStartB_append (B X : List Nat) (off : Nat) (hoff : off ≤ B.length) :
    lineStartB (B ++ X) off = lineStartB B off := by
  unfold lineStartB
  cases off with
  | zero => rfl
  | succ o =>
      have ho : o < B.length := by omega
      simp only [Nat.add_sub_cancel]
      rw [List.getElem?_append, if_pos ho]

theorem lineAt_append_term (B X : List Nat) (c : Nat) (off : Nat)
    (hoff : off ≤ B.length) (hc : nonTerm c = false) :
    lineAt (B ++ c :: X) off = lineAt B off := by
  unfold lineAt
  rw [List.drop_append_of_le_length hoff]
  exact takeWhile_append_stop nonTerm c hc (B.drop off) X

theorem parse_nonempty (l : List Nat) (id : Nat) (h : parse_obj_header l = some id) :
    l ≠ [] := by
  intro hl
  subst hl
  cases h

theorem collect_off_lt (B : List Nat) (id off : Nat)
    (hmem : (id, off) ∈ collect_object_offsets B) : off < B.length := by
  have hsound := collect_sound B (id, off) hmem
  have hne := parse_nonempty _ _ hsound.2
  by_contra hge
  have hdrop : B.drop off = [] := List.drop_eq_nil_of_le (by omega)
  unfold lineAt at hne
  rw [hdrop] at hne
  exact hne rfl

/-- C8: correctness of the appended cross-reference section.  Under the
guard that the offset scan found at least one object (exactly the
condition under which writer.rs appends the block), the appended bytes
start with one newline followed by the xref keyword, so the keyword sits
at position length + 1 of the final buffer; the recorded startxref number
is precisely that position; for every scanned object id the table row at
index id is the in-use entry carrying the ten-digit zero-padded offset,
and that offset is the byte position, in the final buffer, of a line
start whose line parses as the object header of that id. -/
theorem c8_xref_section_correct (pdf_bytes : List Nat) (catalog_ref : Nat)
    (hne : collect_object_offsets pdf_bytes ≠ []) :
    (((append_updated_xref_and_trailer pdf_bytes catalog_ref).drop
        (pdf_bytes.length + 1)).take 4 = strBytes "xref")
    ∧ (∃ pre, append_updated_xref_and_trailer pdf_bytes catalog_ref
        = pre ++ (strBytes "startxref" ++ [10]
          ++ natToDigits (pdf_bytes.length + 1) ++ [10] ++ strBytes "%%EOF"))
    ∧ (∃ mid, append_updated_xref_and_trailer pdf_bytes catalog_ref
        = pdf_bytes ++ 10 :: (strBytes "xref" ++ [10] ++ strBytes "0 "
            ++ natToDigits (1 + lastKey (collect_object_offsets pdf_bytes)) ++ [10]
            ++ ((xrefSectionRows (collect_object_offsets pdf_bytes)).flatten ++ mid)))
    ∧ (∀ id off, (id, off) ∈ collect_object_offsets pdf_bytes →
        (xrefSectionRows (collect_object_offsets pdf_bytes))[id]?
            = some (format10 off ++ strBytes " 00000 n" ++ [13, 10])
        ∧ lineStartB (append_updated_xref_and_trailer pdf_bytes catalog_ref) off
            = true
        ∧ parse_obj_header
            (lineAt (append_updated_xref_and_trailer pdf_bytes catalog_ref) off)
          = some id) := by
  have hemp : (collect_object_offsets pdf_bytes).isEmpty = false := by
    cases hc2 : collect_object_offsets pdf_bytes with
    | nil => exact absurd hc2 hne
    | cons a as => rfl
  have happ : append_updated_xref_and_trailer pdf_bytes catalog_ref
      = pdf_bytes ++ 10 ::
        (strBytes "xref" ++ [10] ++ strBytes "0 "
          ++ natToDigits (1 + lastKey (collect_object_offsets pdf_bytes)) ++ [10]
          ++ (xrefSectionRows (collect_object_offsets pdf_bytes)).flatten
          ++ strBytes "trailer" ++ [10] ++ strBytes "<<" ++ [10]
          ++ strBytes "  /Size "
          ++ natToDigits (1 + lastKey (collect_object_offsets pdf_bytes)) ++ [10]
          ++ strBytes "  /Root " ++ natToDigits catalog_ref ++ strBytes " 0 R" ++ [10]
          ++ (match find_last_startxref pdf_bytes with
              | some p => strBytes "  /Prev " ++ natToDigits p ++ [10]
              | none => [])
          ++ strBytes ">>" ++ [10]
          ++ strBytes "startxref" ++ [10]
          ++ natToDigits (pdf_bytes.length + 1) ++ [10]
          ++ strBytes "%%EOF") := by
    unfold append_updated_xref_and_trailer
    simp only [hemp, Bool.false_eq_true, if_false]
  refine ⟨?_, ?_, ?_, ?_⟩
  · rw [happ, List.drop_append]
    simp only [List.drop_succ_cons, List.drop_zero, List.append_assoc]
    rw [show (4 : Nat) = (strBytes "xref").length from rfl,
      List.take_append_of_le_length (Nat.le_refl _), List.take_length]
  · refine ⟨pdf_bytes ++ 10 ::
        (strBytes "xref" ++ [10] ++ strBytes "0 "
          ++ natToDigits (1 + lastKey (collect_object_offsets pdf_bytes)) ++ [10]
          ++ (xrefSectionRows (collect_object_offsets pdf_bytes)).flatten
          ++ strBytes "trailer" ++ [10] ++ strBytes "<<" ++ [10]
          ++ strBytes "  /Size "
          ++ natToDigits (1 + lastKey (collect_object_offsets pdf_bytes)) ++ [10]
          ++ strBytes "  /Root " ++ natToDigits catalog_ref ++ strBytes " 0 R" ++ [10]
          ++ (match find_last_startxref pdf_bytes with
              | some p => strBytes "  /Prev " ++ natToDigits p ++ [10]
              | none => [])
          ++ strBytes ">>" ++ [10]), ?_⟩
    rw [happ]
    simp [List.append_assoc]
  · refine ⟨strBytes "trailer" ++ [10] ++ strBytes "<<" ++ [10]
          ++ strBytes "  /Size "
          ++ natToDigits (1 + lastKey (collect_object_offsets pdf_bytes)) ++ [10]
          ++ strBytes "  /Root " ++ natToDigits catalog_ref ++ strBytes " 0 R" ++ [10]
          ++ (match find_last_startxref pdf_bytes with
              | some p => strBytes "  /Prev " ++ natToDigits p ++ [10]
              | none => [])
          ++ strBytes ">>" ++ [10]
          ++ strBytes "startxref" ++ [10]
          ++ natToDigits (pdf_bytes.length + 1) ++ [10]
          ++ strBytes "%%EOF", ?_⟩
    rw [happ]
    simp [List.append_assoc]
  · intro id off hmem
    have hsound := collect_sound pdf_bytes (id, off) hmem
    have hofflt : off < pdf_bytes.length := collect_off_lt pdf_bytes id off hmem
    refine ⟨?_, ?_, ?_⟩
    · unfold xrefSectionRows
      rw [hemp]
      simp only [Bool.false_eq_true, if_false, List.nil_append]
      have := xrefRows_get (1 + lastKey (collect_object_offsets pdf_bytes))
        (collect_object_offsets pdf_bytes) 0 (collect_pairwise pdf_bytes)
        (fun e _ => Nat.zero_le e.1) id off hmem
      rw [Nat.sub_zero] at this
      exact this
    · rw [happ, lineStartB_append pdf_bytes _ off (by omega)]
      exact hsound.1
    · rw [happ, lineAt_append_term pdf_bytes _ 10 off (by omega) rfl]
      exact hsound.2

/-- Witness for C8 at a concrete three-line buffer containing the headers
of objects 1 and 5. -/
theorem c8_xref_section_correct_witness :
    collect_object_offsets (strBytes "1 0 obj\nX\n5 0 obj") ≠ []
    ∧ ((((append_updated_xref_and_trailer (strBytes "1 0 obj\nX\n5 0 obj") 1).drop
        ((strBytes "1 0 obj\nX\n5 0 obj").length + 1)).take 4 = strBytes "xref")
    ∧ (∃ pre, append_updated_xref_and_trailer (strBytes "1 0 obj\nX\n5 0 obj") 1
        = pre ++ (strBytes "startxref" ++ [10]
          ++ natToDigits ((strBytes "1 0 obj\nX\n5 0 obj").length + 1) ++ [10]
          ++ strBytes "%%EOF"))
    ∧ (∃ mid, append_updated_xref_and_trailer (strBytes "1 0 obj\nX\n5 0 obj") 1
        = strBytes "1 0 obj\nX\n5 0 obj" ++ 10 :: (strBytes "xref" ++ [10]
            ++ strBytes "0 "
            ++ natToDigits (1 + lastKey (collect_object_offsets
                (strBytes "1 0 obj\nX\n5 0 obj"))) ++ [10]
            ++ ((xrefSectionRows (collect_object_offsets
                (strBytes "1 0 obj\nX\n5 0 obj"))).flatten ++ mid)))
    ∧ (∀ id off, (id, off) ∈ collect_object_offsets (strBytes "1 0 obj\nX\n5 0 obj") →
        (xrefSectionRows (collect_object_offsets (strBytes "1 0 obj\nX\n5 0 obj")))[id]?
            = some (format10 off ++ strBytes " 00000 n" ++ [13, 10])
        ∧ lineStartB (append_updated_xref_and_trailer
            (strBytes "1 0 obj\nX\n5 0 obj") 1) off = true
        ∧ parse_obj_header (lineAt (append_updated_xref_and_trailer
            (strBytes "1 0 obj\nX\n5 0 obj") 1) off) = some id)) :=
  ⟨by decide, c8_xref_section_correct (strBytes "1 0 obj\nX\n5 0 obj") 1 (by decide)⟩

end Hayro
